import Mathlib

set_option autoImplicit false

/-!
Verification development for the document-enrichment pipeline
(`pipeline/llm_enrich.py`).

The relational store is modelled as lists of rows; each SQL statement of the
source becomes an explicit function on that state.  External libraries that
are not part of the repository are modelled as oracle parameters threaded
through an `Env` record:
  * `hashlib.sha256`  -> `Env.sha256_text : String → String`
  * `json.loads`      -> `Env.json_loads : String → Option Json`
    (returns `none` exactly when the library would raise `JSONDecodeError`)
  * the HTTP service  -> `Env.service : String → Nat → ServiceOutcome`
    (outcome of the request for a given prompt and 1-based attempt index;
    `err` covers every exception a single `requests.post` attempt can raise)
Timestamps, latencies and the JSON `parameters` column are omitted from the
row models: no modelled behaviour reads them.
-/

namespace LlmEnrich

/-- Process-wide constant `MODEL` of `llm_enrich.py`. -/
def MODEL : String := "llama3.1:8b-instruct-q4_0"

/-- Process-wide constant `PROMPT_VERSION` of `llm_enrich.py`. -/
def PROMPT_VERSION : String := "phd_status_v1"

/-- Brace characters, named once so the development never spells them inline. -/
def lbrace : Char := '\x7b'

/-- Closing brace character. -/
def rbrace : Char := '\x7d'

/-- Python `\s` (ASCII range): space, tab, newline, carriage return,
vertical tab, form feed. -/
def isPyWS (c : Char) : Bool :=
  c == ' ' || c == '\t' || c == '\n' || c == '\r' || c == '\x0b' || c == '\x0c'

/-- Python `str.strip()`: drop whitespace from both ends. -/
def pyStrip (cs : List Char) : List Char :=
  ((cs.dropWhile isPyWS).reverse.dropWhile isPyWS).reverse

/-- Drop leading whitespace (greedy `\s*`; forced, since the character the
pattern requires next is never itself whitespace). -/
def dropPyWS (cs : List Char) : List Char := cs.dropWhile isPyWS

/-- Sequence of three backquotes, the fence delimiter of the regex. -/
def fence : List Char := ['\x60', '\x60', '\x60']

/-- Lazy search for the closing part of the capture in the regex
`(OPEN_BRACE.*?CLOSE_BRACE)\s*` followed by the fence: scanning left to
right, stop at the first closing brace whose remainder matches
`\s*` ++ fence, and return the characters strictly before it (the `.*?`
part).  Returns `none` when no such closing brace exists. -/
def lazyBody : List Char → Option (List Char)
  | [] => none
  | c :: rest =>
      if c == rbrace && fence.isPrefixOf (dropPyWS rest) then some []
      else
        match lazyBody rest with
        | some b => some (c :: b)
        | none => none

/-- Consume the optional literal "json" of the regex (`(?:json)?`);
deterministic, because consuming it can never turn a match into a
failure when not consuming it would succeed. -/
def stripJsonTag (cs1 : List Char) : List Char :=
  if (String.toList "json").isPrefixOf cs1 then cs1.drop 4 else cs1

/-- Match, anchored at the head of `cs`, the regex of
`extract_json_candidate` (DOTALL), returning the first capture group:
fence, optional literal "json", `\s*`, then a lazily matched braced block,
`\s*`, fence.  The optional "json" and the two `\s*` are deterministic
here because backtracking them can never turn a failure into a success. -/
def matchFencedAt (cs : List Char) : Option (List Char) :=
  if fence.isPrefixOf cs then
    match dropPyWS (stripJsonTag (cs.drop 3)) with
    | [] => none
    | c :: rest =>
        if c == lbrace then
          (lazyBody rest).map (fun b => lbrace :: (b ++ [rbrace]))
        else none
  else none

/-- Leftmost match of the fenced pattern: `re.findall(...)[0]` when the
list is nonempty. -/
def findFirstFenced : List Char → Option (List Char)
  | [] => none
  | c :: rest =>
      match matchFencedAt (c :: rest) with
      | some m => some m
      | none => findFirstFenced rest

/-- Python `str.find`: index of the first occurrence, as an `Option`
(`none` plays the role of `-1`). -/
def firstIdx (c : Char) : List Char → Option Nat
  | [] => none
  | x :: xs => if x == c then some 0 else (firstIdx c xs).map (· + 1)

/-- Python `str.rfind`: index of the last occurrence. -/
def lastIdx (c : Char) : List Char → Option Nat
  | [] => none
  | x :: xs =>
      match lastIdx c xs with
      | some k => some (k + 1)
      | none => if x == c then some 0 else none

/-- Model of `extract_json_candidate`: first the fenced-block regex search,
else the slice from the first opening brace through the last closing brace
when the former strictly precedes the latter, else the whole text; the
returned candidate is stripped. -/
def extract_json_candidate (text : String) : String :=
  match findFirstFenced text.toList with
  | some m => String.mk (pyStrip m)
  | none =>
      let cs := text.toList
      match firstIdx lbrace cs, lastIdx rbrace cs with
      | some s, some e =>
          if s < e then String.mk (pyStrip ((cs.drop s).take (e - s + 1)))
          else String.mk (pyStrip cs)
      | _, _ => String.mk (pyStrip cs)

/-! Rows of the relational store. -/

/-- Row of `staging.work_experience_raw` for one document, in `role_index`
order; `NULL` columns are `none`. -/
structure Role where
  title : Option String
  company : Option String
  employment_type : Option String
  dates : Option String
  location : Option String
  deriving Repr, DecidableEq

/-- Row of `etl.documents`. -/
structure Document where
  document_id : String
  status : String
  error_message : Option String
  ingested_at : Nat
  deriving Repr, DecidableEq

/-- Row of `etl.llm_calls` (the AttemptRecord).  `response_json`,
`parameters` and the timestamp/latency columns are omitted: nothing the
claims mention reads them back. -/
structure LlmCall where
  llm_call_id : Nat
  run_id : Nat
  document_id : String
  model : String
  prompt_version : String
  input_hash_sha256 : String
  status : String
  validated : Bool
  validation_errors : Option String
  error_message : Option String
  response_text : Option String
  deriving Repr, DecidableEq

/-- Row of `core.phd_status` (the EnrichedRecord); `updated_at` omitted. -/
structure PhdStatusRow where
  document_id : String
  run_id : Nat
  model : String
  prompt_version : String
  is_current_phd : Option Bool
  current_employer : Option String
  current_title : Option String
  since_month : Option String
  evidence : String
  source_llm_call_id : Nat
  deriving Repr, DecidableEq

/-- Row of `etl.runs`. -/
structure RunRow where
  run_id : Nat
  pipeline_name : String
  status : String
  error_message : Option String
  deriving Repr, DecidableEq

/-- The relational store.  `next_id` models the id sequences (one counter
serves both `run_id` and `llm_call_id`; only freshness matters). -/
structure DB where
  documents : List Document
  llm_calls : List LlmCall
  phd_status : List PhdStatusRow
  runs : List RunRow
  next_id : Nat
  deriving Repr, DecidableEq

/-! SQL statements of the source, as functions on `DB`. -/

/-- Model of `create_run`: insert a RUNNING row into `etl.runs` and return
its fresh id. -/
def create_run (db : DB) : Nat × DB :=
  (db.next_id,
   { db with
       runs := db.runs ++ [{ run_id := db.next_id, pipeline_name := "llm_enrich_phd",
                             status := "RUNNING", error_message := none }],
       next_id := db.next_id + 1 })

/-- Model of `finish_run`: set the terminal status and error of one run. -/
def finish_run (db : DB) (run_id : Nat) (status : String) (error : Option String) : DB :=
  { db with
      runs := db.runs.map (fun r =>
        if r.run_id == run_id then { r with status := status, error_message := error } else r) }

/-- The WHERE predicate shared by `count_attempts` and the FAILED branch of
`select_documents`: an attempt that did not reach validated success. -/
def attempt_counted (c : LlmCall) (document_id : String) : Bool :=
  c.document_id == document_id && c.model == MODEL && c.prompt_version == PROMPT_VERSION &&
  (c.status == "FAILED" || (c.status == "SUCCESS" && c.validated == false))

/-- Model of `count_attempts`. -/
def count_attempts (db : DB) (document_id : String) : Nat :=
  (db.llm_calls.filter (fun c => attempt_counted c document_id)).length

/-- The WHERE predicate of `select_documents`. -/
def doc_eligible (db : DB) (max_doc_attempts : Nat) (d : Document) : Bool :=
  d.status == "PARSED" || d.status == "NEEDS_REVIEW" ||
  (d.status == "FAILED" && decide (count_attempts db d.document_id < max_doc_attempts))

/-- Insertion step of the `ORDER BY ingested_at DESC` sort. -/
def insertIngestedDesc (d : Document) : List Document → List Document
  | [] => [d]
  | x :: xs =>
      if Nat.ble x.ingested_at d.ingested_at then d :: x :: xs
      else x :: insertIngestedDesc d xs

/-- `ORDER BY ingested_at DESC` as an insertion sort (the particular
stable order among ties is a policy choice, not a correctness
requirement). -/
def sortIngestedDesc : List Document → List Document
  | [] => []
  | x :: xs => insertIngestedDesc x (sortIngestedDesc xs)

/-- Model of `select_documents`: eligible documents ordered by
`ingested_at` descending. -/
def select_documents (db : DB) (max_doc_attempts : Nat) : List String :=
  (sortIngestedDesc (db.documents.filter (doc_eligible db max_doc_attempts))).map
    (fun d => d.document_id)

/-- The ON CONFLICT key of `etl.llm_calls`:
(document_id, model, prompt_version, input_hash_sha256). -/
def call_key_matches (c : LlmCall) (document_id model prompt_version input_hash : String) : Bool :=
  c.document_id == document_id && c.model == model &&
  c.prompt_version == prompt_version && c.input_hash_sha256 == input_hash

/-- The DO UPDATE SET clause of `upsert_llm_call`: overwrite the mutable
columns of an existing attempt row, keeping its id and key. -/
def updated_call (run_id : Nat) (response_text : Option String) (validated : Bool)
    (validation_errors : Option String) (status : String) (error_message : Option String)
    (c : LlmCall) : LlmCall :=
  { c with run_id := run_id, status := status, response_text := response_text,
           validated := validated, validation_errors := validation_errors,
           error_message := error_message }

/-- The VALUES clause of `upsert_llm_call`: a fresh attempt row. -/
def fresh_call (llm_call_id run_id : Nat) (document_id input_hash : String)
    (response_text : Option String) (validated : Bool) (validation_errors : Option String)
    (status : String) (error_message : Option String) : LlmCall :=
  { llm_call_id := llm_call_id, run_id := run_id, document_id := document_id,
    model := MODEL, prompt_version := PROMPT_VERSION, input_hash_sha256 := input_hash,
    status := status, validated := validated, validation_errors := validation_errors,
    error_message := error_message, response_text := response_text }

/-- Model of `upsert_llm_call`: INSERT .. ON CONFLICT DO UPDATE on the
attempt key, returning the row id. -/
def upsert_llm_call (db : DB) (run_id : Nat) (document_id input_hash : String)
    (response_text : Option String) (validated : Bool) (validation_errors : Option String)
    (status : String) (error_message : Option String) : Nat × DB :=
  match db.llm_calls.find? (fun c => call_key_matches c document_id MODEL PROMPT_VERSION input_hash) with
  | some existing =>
      (existing.llm_call_id,
       { db with
           llm_calls := db.llm_calls.map (fun c =>
             if call_key_matches c document_id MODEL PROMPT_VERSION input_hash then
               updated_call run_id response_text validated validation_errors status error_message c
             else c) })
  | none =>
      (db.next_id,
       { db with
           llm_calls := db.llm_calls ++
             [fresh_call db.next_id run_id document_id input_hash response_text validated
                validation_errors status error_message],
           next_id := db.next_id + 1 })

/-- Model of the `UPDATE etl.documents SET status=.., error_message=..`
statements of the main loop. -/
def set_doc_status (db : DB) (document_id status : String) (error : Option String) : DB :=
  { db with
      documents := db.documents.map (fun d =>
        if d.document_id == document_id then { d with status := status, error_message := error }
        else d) }

/-- The idempotency probe of the main loop: does a validated SUCCESS
attempt exist for (document, MODEL, PROMPT_VERSION, input_hash)? -/
def has_validated_success (db : DB) (document_id input_hash : String) : Bool :=
  db.llm_calls.any (fun c =>
    call_key_matches c document_id MODEL PROMPT_VERSION input_hash &&
    c.status == "SUCCESS" && c.validated)

/-- The row written to `core.phd_status` by the success path. -/
def phd_row (document_id : String) (run_id : Nat) (is_current_phd : Option Bool)
    (current_employer current_title since_month : Option String) (evidence : String)
    (source_llm_call_id : Nat) : PhdStatusRow :=
  { document_id := document_id, run_id := run_id, model := MODEL,
    prompt_version := PROMPT_VERSION, is_current_phd := is_current_phd,
    current_employer := current_employer, current_title := current_title,
    since_month := since_month, evidence := evidence,
    source_llm_call_id := source_llm_call_id }

/-- Model of the `core.phd_status` INSERT .. ON CONFLICT (document_id)
DO UPDATE of the main loop. -/
def upsert_phd_status (db : DB) (document_id : String) (run_id : Nat)
    (is_current_phd : Option Bool) (current_employer current_title since_month : Option String)
    (evidence : String) (source_llm_call_id : Nat) : DB :=
  if db.phd_status.any (fun r => r.document_id == document_id) then
    { db with
        phd_status := db.phd_status.map (fun r =>
          if r.document_id == document_id then
            phd_row document_id run_id is_current_phd current_employer current_title
              since_month evidence source_llm_call_id
          else r) }
  else
    { db with
        phd_status := db.phd_status ++
          [phd_row document_id run_id is_current_phd current_employer current_title
            since_month evidence source_llm_call_id] }

/-! The response validator: `json.loads`, the pydantic `PhDStatus` model,
and the non-null business-field check of the main loop. -/

/-- JSON values, the codomain of the `json.loads` oracle.  An `obj` is the
dict the library returns: its keys are unique (duplicates already
resolved by the library). -/
inductive Json where
  | null
  | bool (b : Bool)
  | num (n : Int)
  | str (s : String)
  | arr (elems : List Json)
  | obj (fields : List (String × Json))

/-- Dict lookup on the fields of a JSON object. -/
def jlookup (fields : List (String × Json)) (k : String) : Option Json :=
  (fields.find? (fun p => p.1 == k)).map (fun p => p.2)

/-- The pydantic model `PhDStatus`: `is_current_phd` is deliberately
`Optional` so parsing succeeds on `null`; `evidence` is required. -/
structure PhDStatus where
  is_current_phd : Option Bool
  current_employer : Option String
  current_title : Option String
  since_month : Option String
  evidence : String
  deriving Repr, DecidableEq

/-- Pydantic parse of an `Optional[bool]` field (absent and `null` both
give `None`; type coercions of lax mode are not modelled — no claim
depends on them). -/
def parseOptBool (name : String) : Option Json → Except String (Option Bool)
  | none => .ok none
  | some .null => .ok none
  | some (.bool b) => .ok (some b)
  | some _ => .error ("validation error: " ++ name ++ " must be a boolean or null")

/-- Pydantic parse of an `Optional[str]` field. -/
def parseOptStr (name : String) : Option Json → Except String (Option String)
  | none => .ok none
  | some .null => .ok none
  | some (.str s) => .ok (some s)
  | some _ => .error ("validation error: " ++ name ++ " must be a string or null")

/-- Pydantic parse of the required `evidence : str` field. -/
def parseEvidence : Option Json → Except String String
  | some (.str s) => .ok s
  | none => .error "validation error: evidence field required"
  | some _ => .error "validation error: evidence must be a string"

/-- Model of `PhDStatus(**response_json)` on a dict: field-wise parse;
extra keys are ignored (pydantic default); any field error is a
`ValidationError`. -/
def phdStatus_of_obj (fields : List (String × Json)) : Except String PhDStatus :=
  match parseOptBool "is_current_phd" (jlookup fields "is_current_phd") with
  | .error e => .error e
  | .ok icp =>
      match parseOptStr "current_employer" (jlookup fields "current_employer") with
      | .error e => .error e
      | .ok emp =>
          match parseOptStr "current_title" (jlookup fields "current_title") with
          | .error e => .error e
          | .ok title =>
              match parseOptStr "since_month" (jlookup fields "since_month") with
              | .error e => .error e
              | .ok since =>
                  match parseEvidence (jlookup fields "evidence") with
                  | .error e => .error e
                  | .ok ev =>
                      .ok { is_current_phd := icp, current_employer := emp,
                            current_title := title, since_month := since, evidence := ev }

/-- Outcome of the parse-and-validate block of the main loop (lines
319–334): either the except-clause kept control (`handled`, carrying the
four locals `validated`, `validation_errors`, `response_json`, `parsed`
exactly as the block leaves them), or an exception outside the caught
tuple `(JSONDecodeError, ValidationError, ValueError)` escaped to the
per-document handler (`raised`). -/
inductive ValidateOutcome where
  | handled (validated : Bool) (validation_errors : Option String)
      (response_json : Option Json) (parsed : Option PhDStatus)
  | raised (message : String)

/-- Model of the parse-and-validate block: extract a JSON candidate, run
the `json.loads` oracle, build `PhDStatus(**d)`, and enforce the non-null
`is_current_phd` rule.  A successfully parsed non-object JSON value makes
`PhDStatus(**response_json)` raise `TypeError`, which is not in the caught
tuple. -/
def run_validation (json_loads : String → Option Json) (response_text : String) :
    ValidateOutcome :=
  match json_loads (extract_json_candidate response_text) with
  | none => .handled false (some "JSONDecodeError: Expecting value") none none
  | some j =>
      match j with
      | .obj fields =>
          match phdStatus_of_obj fields with
          | .error e => .handled false (some e) (some j) none
          | .ok p =>
              if p.is_current_phd = none then
                .handled false (some "is_current_phd must be true/false (not null)") (some j) none
              else
                .handled true none (some j) (some p)
      | _ => .raised "TypeError: argument of type PhDStatus is not a mapping"

/-! The unreliable-service client. -/

/-- Outcome of one `requests.post` attempt inside `ollama_chat`: `ok` is a
2xx response whose body yields `data.message.content`; `err` is any
exception the attempt raises (transport error, `raise_for_status`,
malformed body). -/
inductive ServiceOutcome where
  | ok (content : String)
  | err (message : String)
  deriving Repr, DecidableEq

/-- The retry loop of `ollama_chat`, on the list of outcomes of the
remaining attempts; returns the result together with the number of
attempts actually performed (accumulated in `used`).  `last_error` is the
`last_error` local of the source. -/
def ollama_chat_go (oracle : Nat → ServiceOutcome) :
    Nat → Nat → Option String → Except String String × Nat
  | 0, used, last_error =>
      (match last_error with
       | some e => .error e
       | none => .error "RuntimeError: Ollama call failed", used)
  | n + 1, used, _ =>
      match oracle (used + 1) with
      | .ok content => (.ok content, used + 1)
      | .err e => ollama_chat_go oracle n (used + 1) (some e)

/-- Model of `ollama_chat`: up to `max_retries` blocking attempts
(`for attempt in range(1, OLLAMA_MAX_RETRIES + 1)`), returning the first
successful content; after exhausting attempts it raises the last
underlying error.  It takes no `DB` and returns no `DB`: the client never
touches persistent state. -/
def ollama_chat (max_retries : Nat) (oracle : Nat → ServiceOutcome) :
    Except String String × Nat :=
  ollama_chat_go oracle max_retries 0 none

/-! The per-document state machine and the run. -/

/-- Environment of one pipeline invocation: configuration plus the oracles
for the external libraries.  `selector_error` models an exception raised
by the selector query (a run-level fatal error inside the top-level
`try`); `none` is the normal case. -/
structure Env where
  max_doc_attempts : Nat
  ollama_max_retries : Nat
  prompt_template : String
  roles_rows : String → List Role
  sha256_text : String → String
  json_loads : String → Option Json
  service : String → Nat → ServiceOutcome
  selector_error : Option String

/-- Python `f-string` rendering of a possibly-`None` value. -/
def pyShow : Option String → String
  | none => "None"
  | some s => s

/-- Model of `render_roles`: one line per role, joined by newlines
(the `employment_type` column is fetched but not rendered, as in the
source). -/
def render_roles (roles : List Role) : String :=
  String.intercalate "\n" (roles.map (fun r =>
    "- " ++ pyShow r.title ++ " | " ++ pyShow r.company ++ " | " ++
    pyShow r.dates ++ " | " ++ pyShow r.location))

/-- Python `str.replace`, scanning left to right and replacing
non-overlapping occurrences; the counter consumes the characters of a
matched occurrence so the recursion stays structural on the text. -/
def pyReplaceAux (pat rep : List Char) : List Char → Nat → List Char
  | [], _ => []
  | _ :: rest, skip + 1 => pyReplaceAux pat rep rest skip
  | c :: rest, 0 =>
      if pat.isPrefixOf (c :: rest) then rep ++ pyReplaceAux pat rep rest (pat.length - 1)
      else c :: pyReplaceAux pat rep rest 0

/-- Python `str.replace` on strings (for the nonempty patterns used
here). -/
def pyReplace (s pat rep : String) : String :=
  String.mk (pyReplaceAux pat.toList rep.toList s.toList 0)

/-- The rendered prompt for a document:
`prompt_template.replace` of the ROLES placeholder by the roles block. -/
def doc_prompt (env : Env) (document_id : String) : String :=
  pyReplace env.prompt_template "\x7b\x7bROLES\x7d\x7d" (render_roles (env.roles_rows document_id))

/-- The current input fingerprint of a document: sha256 of its rendered
prompt. -/
def doc_fingerprint (env : Env) (document_id : String) : String :=
  env.sha256_text (doc_prompt env document_id)

/-- One iteration of the per-document loop of `main` (lines 255–454),
returning the store after the iteration and the number of service
requests performed.  The guards appear in source order: attempt budget,
missing role rows, idempotent skip.  The outer `except` of the source
(service-call failure or an exception escaping validation) rolls back the
uncommitted transaction — nothing written yet on those paths — then
records a FAILED attempt and marks the document FAILED. -/
def process_document (env : Env) (db : DB) (run_id : Nat) (document_id : String) :
    DB × Nat :=
  if env.max_doc_attempts ≤ count_attempts db document_id then (db, 0)
  else if env.roles_rows document_id = [] then (db, 0)
  else
    let input_hash := doc_fingerprint env document_id
    if has_validated_success db document_id input_hash then (db, 0)
    else
      let oc := ollama_chat env.ollama_max_retries (env.service (doc_prompt env document_id))
      match oc.1 with
      | .error e =>
          (set_doc_status
            (upsert_llm_call db run_id document_id input_hash none false none
              "FAILED" (some e)).2
            document_id "FAILED" (some e), oc.2)
      | .ok response_text =>
          match run_validation env.json_loads response_text with
          | .raised e =>
              (set_doc_status
                (upsert_llm_call db run_id document_id input_hash none false none
                  "FAILED" (some e)).2
                document_id "FAILED" (some e), oc.2)
          | .handled validated validation_errors _ parsed =>
              let call_status := if validated then "SUCCESS" else "FAILED"
              let call_error_message :=
                if validated then none
                else some ("Validation failed: " ++ pyShow validation_errors)
              let up := upsert_llm_call db run_id document_id input_hash
                (some response_text) validated validation_errors call_status call_error_message
              match validated, parsed with
              | true, some p =>
                  (set_doc_status
                    (upsert_phd_status up.2 document_id run_id p.is_current_phd
                      p.current_employer p.current_title p.since_month p.evidence up.1)
                    document_id "ENRICHED" none, oc.2)
              | _, _ =>
                  (set_doc_status up.2 document_id "FAILED"
                     (some ("LLM output invalid: " ++ pyShow validation_errors)), oc.2)

/-- Fold of `process_document` over the selected documents, logging the
number of service requests per document. -/
def process_docs (env : Env) (run_id : Nat) : DB → List String → DB × List (String × Nat)
  | db, [] => (db, [])
  | db, d :: rest =>
      let pd := process_document env db run_id d
      let pr := process_docs env run_id pd.1 rest
      (pr.1, (d, pd.2) :: pr.2)

/-- Result of one invocation of `main` (after the DSN guard): the final
store, the process exit code, the per-document service-call log, and the
id of the run row this invocation created. -/
structure RunOutcome where
  db : DB
  exit_code : Nat
  call_log : List (String × Nat)
  run_id : Nat

/-- Model of `main`: create the run row (committed immediately); inside
the top-level `try`, select the eligible documents and process each; a
selector exception rolls back and finishes the run FAILED with exit code
1; otherwise the run finishes SUCCESS with exit code 0 even when
individual documents failed. -/
def run_pipeline (env : Env) (db : DB) : RunOutcome :=
  let cr := create_run db
  match env.selector_error with
  | some e =>
      { db := finish_run cr.2 cr.1 "FAILED" (some e), exit_code := 1,
        call_log := [], run_id := cr.1 }
  | none =>
      let docs := select_documents cr.2 env.max_doc_attempts
      let pr := process_docs env cr.1 cr.2 docs
      { db := finish_run pr.1 cr.1 "SUCCESS" none, exit_code := 0,
        call_log := pr.2, run_id := cr.1 }

/-- Iterated invocations of the pipeline on the same environment. -/
def iterate_runs (env : Env) (db : DB) : Nat → DB
  | 0 => db
  | n + 1 => iterate_runs env (run_pipeline env db).db n

/-- Status of a document in the store, if present. -/
def doc_status (db : DB) (document_id : String) : Option String :=
  (db.documents.find? (fun d => d.document_id == document_id)).map (fun d => d.status)

/-- The `etl.documents` rows of one document. -/
def docs_of (db : DB) (document_id : String) : List Document :=
  db.documents.filter (fun d => d.document_id == document_id)

/-- The `etl.llm_calls` rows of one document. -/
def calls_of (db : DB) (document_id : String) : List LlmCall :=
  db.llm_calls.filter (fun c => c.document_id == document_id)

/-- The `core.phd_status` rows of one document. -/
def phd_of (db : DB) (document_id : String) : List PhdStatusRow :=
  db.phd_status.filter (fun r => r.document_id == document_id)

/-- All rows of a store that belong to one document: its `etl.documents`
row(s), its attempts, and its enriched record(s).  Claims about "all of a
document's persisted records" are phrased through this projection. -/
def doc_records (db : DB) (document_id : String) :
    List Document × List LlmCall × List PhdStatusRow :=
  (docs_of db document_id, calls_of db document_id, phd_of db document_id)

/-- Status of a run row in the store, if present. -/
def run_status (db : DB) (run_id : Nat) : Option String :=
  (db.runs.find? (fun r => r.run_id == run_id)).map (fun r => r.status)

/-- Two attempt rows share the uniqueness key of `etl.llm_calls`. -/
def llm_call_same_key (a b : LlmCall) : Prop :=
  a.document_id = b.document_id ∧ a.model = b.model ∧
  a.prompt_version = b.prompt_version ∧ a.input_hash_sha256 = b.input_hash_sha256

/-- The uniqueness constraint of `etl.llm_calls`: no two rows share
(document_id, model, prompt_version, input_hash_sha256). -/
def llm_keys_unique (db : DB) : Prop :=
  db.llm_calls.Pairwise (fun a b => ¬ llm_call_same_key a b)

/-- The uniqueness constraint of `core.phd_status`: at most one row per
document identity. -/
def phd_doc_unique (db : DB) : Prop :=
  db.phd_status.Pairwise (fun a b => a.document_id ≠ b.document_id)

/-- All run ids in the store are below the id counter (freshness of
`create_run` ids). -/
def run_ids_fresh (db : DB) : Prop :=
  ∀ r ∈ db.runs, r.run_id < db.next_id

/-! Concrete stores and environments used by witnesses and
counterexamples. -/

/-- A role row as the parse adapter would stage it. -/
def exRole : Role :=
  { title := some "PhD Student", company := some "Uni", employment_type := none,
    dates := some "2020", location := none }

/-- A second, distinct role row. -/
def exRoleB : Role :=
  { title := some "Engineer", company := some "Acme", employment_type := none,
    dates := some "2021", location := none }

/-- A FAILED attempt row for document `d` with fingerprint `hash`. -/
def failedCall (i : Nat) (d hash : String) : LlmCall :=
  { llm_call_id := i, run_id := 0, document_id := d, model := MODEL,
    prompt_version := PROMPT_VERSION, input_hash_sha256 := hash, status := "FAILED",
    validated := false, validation_errors := none, error_message := some "boom",
    response_text := none }

/-- A validated SUCCESS attempt row for document "A" whose fingerprint is
the identity hash of the rendered prompt of `envBase`. -/
def okCall : LlmCall :=
  { llm_call_id := 1, run_id := 0, document_id := "A", model := MODEL,
    prompt_version := PROMPT_VERSION,
    input_hash_sha256 := "- PhD Student | Uni | 2020 | None", status := "SUCCESS",
    validated := true, validation_errors := none, error_message := none,
    response_text := some "ok" }

/-- A document row. -/
def exDoc (d st : String) (t : Nat) : Document :=
  { document_id := d, status := st, error_message := none, ingested_at := t }

/-- Base environment: one role row per document, identity hash, a JSON
oracle that never parses, and a service that always fails. -/
def envBase : Env :=
  { max_doc_attempts := 3, ollama_max_retries := 2,
    prompt_template := "\x7b\x7bROLES\x7d\x7d",
    roles_rows := fun _ => [exRole],
    sha256_text := fun s => s,
    json_loads := fun _ => none,
    service := fun _ _ => ServiceOutcome.err "connection refused",
    selector_error := none }

/-- Store with a validated success already recorded for document "A" at
its current fingerprint. -/
def dbSkip : DB :=
  { documents := [exDoc "A" "PARSED" 0], llm_calls := [okCall], phd_status := [],
    runs := [], next_id := 10 }

/-- Store with an exhausted FAILED document "E". -/
def dbExhausted : DB :=
  { documents := [exDoc "E" "FAILED" 0],
    llm_calls := [failedCall 1 "E" "h1", failedCall 2 "E" "h2", failedCall 3 "E" "h3"],
    phd_status := [], runs := [], next_id := 10 }

/-- Store with an exhausted document "P" whose status is PARSED: the
selector still returns it; only the pre-call guard of the main loop
protects it. -/
def dbExhaustedParsed : DB :=
  { documents := [exDoc "P" "PARSED" 0],
    llm_calls := [failedCall 1 "P" "h1", failedCall 2 "P" "h2", failedCall 3 "P" "h3"],
    phd_status := [], runs := [], next_id := 10 }

/-- A schema-compliant response body. -/
def goodText : String :=
  "\x7b\"is_current_phd\": true, \"evidence\": \"worked at lab\"\x7d"

/-- The JSON value Python would parse `goodText` into. -/
def goodJson : Json :=
  Json.obj [("is_current_phd", Json.bool true), ("evidence", Json.str "worked at lab")]

/-- A response body whose decision field is null. -/
def nullText : String :=
  "\x7b\"is_current_phd\": null, \"evidence\": \"inconclusive\"\x7d"

/-- The JSON value Python would parse `nullText` into. -/
def nullJson : Json :=
  Json.obj [("is_current_phd", Json.null), ("evidence", Json.str "inconclusive")]

/-- Environment whose service returns a valid payload. -/
def envGood : Env :=
  { envBase with
      json_loads := fun s => if s == goodText then some goodJson else none,
      service := fun _ _ => ServiceOutcome.ok goodText }

/-- Environment whose service returns a null-decision payload. -/
def envNull : Env :=
  { envBase with
      json_loads := fun s => if s == nullText then some nullJson else none,
      service := fun _ _ => ServiceOutcome.ok nullText }

/-- Fresh store with one PARSED document "A" and no attempts. -/
def dbFresh : DB :=
  { documents := [exDoc "A" "PARSED" 0], llm_calls := [], phd_status := [],
    runs := [], next_id := 1 }

/-- Environment for the two-document run: document "A" gets a service
that always raises, document "B" gets a valid payload. -/
def envAB : Env :=
  { envBase with
      roles_rows := fun d => if d == "A" then [exRole] else [exRoleB],
      json_loads := fun s => if s == goodText then some goodJson else none,
      service := fun prompt _ =>
        if prompt == "- PhD Student | Uni | 2020 | None" then ServiceOutcome.err "boom"
        else ServiceOutcome.ok goodText }

/-- Store with two PARSED documents, "A" more recent than "B". -/
def dbAB : DB :=
  { documents := [exDoc "A" "PARSED" 1, exDoc "B" "PARSED" 0], llm_calls := [],
    phd_status := [], runs := [], next_id := 1 }

/-- A JSON oracle agreeing with Python `json.loads` on the input "42":
the text parses as the number 42, not an object. -/
def jl42 : String → Option Json :=
  fun s => if s == "42" then some (Json.num 42) else none

/-! Generic list lemmas used by the framing arguments: mapping a function
that fixes the rows a predicate selects, and whose changes the predicate
cannot see, commutes with filtering and searching. -/

theorem filter_map_of_fix {α : Type} (f : α → α) (p : α → Bool) (l : List α)
    (hfix : ∀ a, p a = true → f a = a) (hp : ∀ a, p (f a) = p a) :
    (l.map f).filter p = l.filter p := by
  induction l with
  | nil => rfl
  | cons a t ih =>
      simp only [List.map_cons, List.filter_cons, hp a]
      cases h : p a with
      | false => simpa using ih
      | true => simp [hfix a h, ih]

theorem find?_map_of_fix {α : Type} (f : α → α) (p : α → Bool) (l : List α)
    (hfix : ∀ a, p a = true → f a = a) (hp : ∀ a, p (f a) = p a) :
    (l.map f).find? p = l.find? p := by
  induction l with
  | nil => rfl
  | cons a t ih =>
      simp only [List.map_cons, List.find?_cons, hp a]
      cases h : p a with
      | false => simpa using ih
      | true => simp [hfix a h]

theorem filter_map_comm {α : Type} (f : α → α) (p : α → Bool) (l : List α)
    (hp : ∀ a, p (f a) = p a) :
    (l.map f).filter p = (l.filter p).map f := by
  induction l with
  | nil => rfl
  | cons a t ih =>
      simp only [List.map_cons, List.filter_cons, hp a]
      cases h : p a with
      | false => simpa using ih
      | true => simp [ih]

theorem filter_of_filter_sub {α : Type} (q p : α → Bool) (l : List α)
    (h : ∀ a, p a = true → q a = true) :
    (l.filter q).filter p = l.filter p := by
  induction l with
  | nil => rfl
  | cons a t ih =>
      cases hq : q a with
      | true => simp [List.filter_cons, hq, ih]
      | false =>
          have hpa : p a = false := by
            cases hpa : p a with
            | false => rfl
            | true => rw [h a hpa] at hq; cases hq
          simp [List.filter_cons, hq, hpa, ih]

theorem any_eq_not_isEmpty_filter {α : Type} (p : α → Bool) (l : List α) :
    l.any p = !(l.filter p).isEmpty := by
  induction l with
  | nil => rfl
  | cons a t ih =>
      cases h : p a with
      | true => simp [List.any_cons, List.filter_cons, h]
      | false => simp [List.any_cons, List.filter_cons, h, ih]

theorem any_congr_of_filter_eq {α : Type} (p : α → Bool) {l₁ l₂ : List α}
    (h : l₁.filter p = l₂.filter p) : l₁.any p = l₂.any p := by
  rw [any_eq_not_isEmpty_filter, any_eq_not_isEmpty_filter, h]

theorem length_filter_map_mono {α : Type} (f : α → α) (p : α → Bool) (l : List α)
    (h : ∀ a, p a = true → p (f a) = true) :
    (l.filter p).length ≤ ((l.map f).filter p).length := by
  induction l with
  | nil => exact Nat.le_refl 0
  | cons a t ih =>
      cases hpa : p a with
      | true =>
          simp only [List.map_cons, List.filter_cons, hpa, h a hpa, List.length_cons]
          exact Nat.succ_le_succ ih
      | false =>
          simp only [List.map_cons, List.filter_cons, hpa]
          cases hfa : p (f a) with
          | true =>
              simp only [List.length_cons]
              exact Nat.le_trans ih (Nat.le_succ _)
          | false => exact ih

theorem find?_cons_explicit {α : Type} (p : α → Bool) (a : α) (l : List α) :
    (a :: l).find? p = if p a = true then some a else l.find? p := by
  cases h : p a with
  | true => simp [List.find?_cons_of_pos _ h, h]
  | false => simp [List.find?_cons_of_neg _ (by simp [h] : ¬p a = true), h]

theorem find?_eq_head?_filter {α : Type} (p : α → Bool) (l : List α) :
    l.find? p = (l.filter p).head? := by
  induction l with
  | nil => rfl
  | cons a t ih =>
      cases h : p a with
      | true => simp [List.find?_cons_of_pos _ h, List.filter_cons, h]
      | false =>
          rw [List.find?_cons_of_neg _ (by simp [h]), ih]
          simp [List.filter_cons, h]

/-! Bridging between the Bool-valued SQL predicates and propositions. -/

theorem call_key_matches_iff {c : LlmCall} {w x y z : String} :
    call_key_matches c w x y z = true ↔
      c.document_id = w ∧ c.model = x ∧ c.prompt_version = y ∧ c.input_hash_sha256 = z := by
  simp [call_key_matches, Bool.and_eq_true, and_assoc]

theorem attempt_counted_iff {c : LlmCall} {d : String} :
    attempt_counted c d = true ↔
      c.document_id = d ∧ c.model = MODEL ∧ c.prompt_version = PROMPT_VERSION ∧
      (c.status = "FAILED" ∨ (c.status = "SUCCESS" ∧ c.validated = false)) := by
  simp [attempt_counted, Bool.and_eq_true, Bool.or_eq_true, and_assoc]

theorem attempt_counted_docid {c : LlmCall} {d : String} (h : attempt_counted c d = true) :
    (c.document_id == d) = true := by
  have := (attempt_counted_iff.mp h).1
  simp [this]

/-- The Bool predicate of `has_validated_success`. -/
def hvs_pred (document_id input_hash : String) (c : LlmCall) : Bool :=
  call_key_matches c document_id MODEL PROMPT_VERSION input_hash &&
  c.status == "SUCCESS" && c.validated

theorem has_validated_success_eq_any (db : DB) (d hash : String) :
    has_validated_success db d hash = db.llm_calls.any (hvs_pred d hash) := rfl

theorem hvs_pred_docid {c : LlmCall} {d hash : String} (h : hvs_pred d hash c = true) :
    (c.document_id == d) = true := by
  simp only [hvs_pred, Bool.and_eq_true] at h
  simp [(call_key_matches_iff.mp h.1.1).1]

theorem count_attempts_eq_calls_of (db : DB) (d : String) :
    count_attempts db d = ((calls_of db d).filter (fun c => attempt_counted c d)).length := by
  unfold count_attempts calls_of
  rw [filter_of_filter_sub _ _ _ (fun c hc => attempt_counted_docid hc)]

theorem count_attempts_congr {db1 db2 : DB} {d : String}
    (h : calls_of db1 d = calls_of db2 d) : count_attempts db1 d = count_attempts db2 d := by
  rw [count_attempts_eq_calls_of, count_attempts_eq_calls_of, h]

theorem has_validated_success_congr {db1 db2 : DB} {d : String} (hash : String)
    (h : calls_of db1 d = calls_of db2 d) :
    has_validated_success db1 d hash = has_validated_success db2 d hash := by
  rw [has_validated_success_eq_any, has_validated_success_eq_any]
  refine any_congr_of_filter_eq _ ?_
  calc db1.llm_calls.filter (hvs_pred d hash)
      = (calls_of db1 d).filter (hvs_pred d hash) := by
        unfold calls_of
        rw [filter_of_filter_sub _ _ _ (fun c hc => hvs_pred_docid hc)]
    _ = (calls_of db2 d).filter (hvs_pred d hash) := by rw [h]
    _ = db2.llm_calls.filter (hvs_pred d hash) := by
        unfold calls_of
        rw [filter_of_filter_sub _ _ _ (fun c hc => hvs_pred_docid hc)]

theorem doc_status_eq_head_docs_of (db : DB) (d : String) :
    doc_status db d = ((docs_of db d).head?).map (fun x => x.status) := by
  unfold doc_status docs_of
  rw [find?_eq_head?_filter]

theorem doc_status_congr {db1 db2 : DB} {d : String}
    (h : docs_of db1 d = docs_of db2 d) : doc_status db1 d = doc_status db2 d := by
  rw [doc_status_eq_head_docs_of, doc_status_eq_head_docs_of, h]

theorem count_attempts_pos_of_mem {db : DB} {c : LlmCall} {d : String}
    (hmem : c ∈ db.llm_calls) (hc : attempt_counted c d = true) :
    1 ≤ count_attempts db d := by
  unfold count_attempts
  have : c ∈ db.llm_calls.filter (fun c => attempt_counted c d) :=
    List.mem_filter.mpr ⟨hmem, hc⟩
  exact List.length_pos.mpr (List.ne_nil_of_mem this)

/-! Framing lemmas for `upsert_llm_call`. -/

theorem upsert_llm_call_documents (db : DB) (rid : Nat) (docId hash : String)
    (rt : Option String) (v : Bool) (ve : Option String) (st : String) (em : Option String) :
    (upsert_llm_call db rid docId hash rt v ve st em).2.documents = db.documents := by
  unfold upsert_llm_call
  cases db.llm_calls.find? (fun c => call_key_matches c docId MODEL PROMPT_VERSION hash) <;> rfl

theorem upsert_llm_call_phd_status (db : DB) (rid : Nat) (docId hash : String)
    (rt : Option String) (v : Bool) (ve : Option String) (st : String) (em : Option String) :
    (upsert_llm_call db rid docId hash rt v ve st em).2.phd_status = db.phd_status := by
  unfold upsert_llm_call
  cases db.llm_calls.find? (fun c => call_key_matches c docId MODEL PROMPT_VERSION hash) <;> rfl

theorem upsert_llm_call_runs (db : DB) (rid : Nat) (docId hash : String)
    (rt : Option String) (v : Bool) (ve : Option String) (st : String) (em : Option String) :
    (upsert_llm_call db rid docId hash rt v ve st em).2.runs = db.runs := by
  unfold upsert_llm_call
  cases db.llm_calls.find? (fun c => call_key_matches c docId MODEL PROMPT_VERSION hash) <;> rfl

theorem updated_call_key (rid : Nat) (rt : Option String) (v : Bool) (ve : Option String)
    (st : String) (em : Option String) (c : LlmCall) (w x y z : String) :
    call_key_matches (updated_call rid rt v ve st em c) w x y z = call_key_matches c w x y z :=
  rfl

theorem upsert_llm_call_filter_other {db : DB} {rid : Nat} {docId hash : String}
    {rt : Option String} {v : Bool} {ve : Option String} {st : String} {em : Option String}
    {p : LlmCall → Bool} {d : String} (hd : d ≠ docId)
    (hp : ∀ c, p c = true → c.document_id = d) :
    (upsert_llm_call db rid docId hash rt v ve st em).2.llm_calls.filter p =
      db.llm_calls.filter p := by
  unfold upsert_llm_call
  cases hf : db.llm_calls.find? (fun c => call_key_matches c docId MODEL PROMPT_VERSION hash) with
  | some ex =>
      simp only
      apply filter_map_of_fix
      · intro a ha
        have hk : call_key_matches a docId MODEL PROMPT_VERSION hash = false := by
          cases hk : call_key_matches a docId MODEL PROMPT_VERSION hash with
          | false => rfl
          | true => exact ((hd ((hp a ha).symm.trans (call_key_matches_iff.mp hk).1)).elim)
        simp [hk]
      · intro a
        cases hk : call_key_matches a docId MODEL PROMPT_VERSION hash with
        | false => simp [hk]
        | true =>
            have h1 : a.document_id = docId := (call_key_matches_iff.mp hk).1
            have pa : p a = false := by
              cases hpa : p a with
              | false => rfl
              | true => exact ((hd ((hp a hpa).symm.trans h1)).elim)
            have pfa : p (updated_call rid rt v ve st em a) = false := by
              cases hpa : p (updated_call rid rt v ve st em a) with
              | false => rfl
              | true => exact ((hd ((hp _ hpa).symm.trans h1)).elim)
            simp [hk, pa, pfa]
  | none =>
      simp only
      rw [List.filter_append]
      have hfr : p (fresh_call db.next_id rid docId hash rt v ve st em) = false := by
        cases hpa : p (fresh_call db.next_id rid docId hash rt v ve st em) with
        | false => rfl
        | true => exact ((hd (hp _ hpa).symm).elim)
      simp [hfr]

theorem upsert_llm_call_mem (db : DB) (rid : Nat) (docId hash : String)
    (rt : Option String) (v : Bool) (ve : Option String) (st : String) (em : Option String) :
    ∃ c ∈ (upsert_llm_call db rid docId hash rt v ve st em).2.llm_calls,
      c.llm_call_id = (upsert_llm_call db rid docId hash rt v ve st em).1 ∧
      call_key_matches c docId MODEL PROMPT_VERSION hash = true ∧
      c.run_id = rid ∧ c.status = st ∧ c.validated = v ∧
      c.validation_errors = ve ∧ c.error_message = em ∧ c.response_text = rt := by
  unfold upsert_llm_call
  cases hf : db.llm_calls.find? (fun c => call_key_matches c docId MODEL PROMPT_VERSION hash) with
  | some ex =>
      have hmem : ex ∈ db.llm_calls := List.mem_of_find?_eq_some hf
      have hpred : call_key_matches ex docId MODEL PROMPT_VERSION hash = true := by
        have h := List.find?_some hf
        simpa using h
      refine ⟨updated_call rid rt v ve st em ex, ?_, ?_⟩
      · simp only
        refine List.mem_map.mpr ⟨ex, hmem, ?_⟩
        simp [hpred]
      · refine ⟨rfl, ?_, rfl, rfl, rfl, rfl, rfl, rfl⟩
        rw [updated_call_key]
        exact hpred
  | none =>
      refine ⟨fresh_call db.next_id rid docId hash rt v ve st em, ?_, ?_⟩
      · simp
      · exact ⟨rfl, call_key_matches_iff.mpr ⟨rfl, rfl, rfl, rfl⟩, rfl, rfl, rfl, rfl, rfl, rfl⟩

theorem upsert_llm_call_keys_unique (db : DB) (rid : Nat) (docId hash : String)
    (rt : Option String) (v : Bool) (ve : Option String) (st : String) (em : Option String)
    (h : llm_keys_unique db) :
    llm_keys_unique (upsert_llm_call db rid docId hash rt v ve st em).2 := by
  unfold llm_keys_unique at h ⊢
  unfold upsert_llm_call
  cases hf : db.llm_calls.find? (fun c => call_key_matches c docId MODEL PROMPT_VERSION hash) with
  | some ex =>
      simp only
      rw [List.pairwise_map]
      refine h.imp ?_
      intro a b hab hfab
      apply hab
      have key4 : ∀ c : LlmCall,
          ((if call_key_matches c docId MODEL PROMPT_VERSION hash then
              updated_call rid rt v ve st em c else c).document_id = c.document_id ∧
           (if call_key_matches c docId MODEL PROMPT_VERSION hash then
              updated_call rid rt v ve st em c else c).model = c.model ∧
           (if call_key_matches c docId MODEL PROMPT_VERSION hash then
              updated_call rid rt v ve st em c else c).prompt_version = c.prompt_version ∧
           (if call_key_matches c docId MODEL PROMPT_VERSION hash then
              updated_call rid rt v ve st em c else c).input_hash_sha256 = c.input_hash_sha256) := by
        intro c
        split <;> exact ⟨rfl, rfl, rfl, rfl⟩
      obtain ⟨ka1, ka2, ka3, ka4⟩ := key4 a
      obtain ⟨kb1, kb2, kb3, kb4⟩ := key4 b
      obtain ⟨e1, e2, e3, e4⟩ := hfab
      exact ⟨ka1 ▸ kb1 ▸ e1, ka2 ▸ kb2 ▸ e2, ka3 ▸ kb3 ▸ e3, ka4 ▸ kb4 ▸ e4⟩
  | none =>
      simp only
      rw [List.pairwise_append]
      refine ⟨h, List.pairwise_singleton _ _, ?_⟩
      intro a ha b hb
      simp only [List.mem_singleton] at hb
      subst hb
      intro hsame
      obtain ⟨e1, e2, e3, e4⟩ := hsame
      have hk : call_key_matches a docId MODEL PROMPT_VERSION hash = true :=
        call_key_matches_iff.mpr ⟨e1, e2, e3, e4⟩
      exact List.find?_eq_none.mp hf a ha hk

theorem upsert_llm_call_hvs_false (db : DB) (rid : Nat) (docId hash : String)
    (rt : Option String) (ve : Option String) (st : String) (em : Option String)
    (hprev : has_validated_success db docId hash = false) :
    has_validated_success (upsert_llm_call db rid docId hash rt false ve st em).2 docId hash =
      false := by
  rw [has_validated_success_eq_any, List.any_eq_false] at hprev
  rw [has_validated_success_eq_any, List.any_eq_false]
  unfold upsert_llm_call
  cases hf : db.llm_calls.find? (fun c => call_key_matches c docId MODEL PROMPT_VERSION hash) with
  | some ex =>
      simp only
      intro c' hc'
      obtain ⟨a, ha, rfl⟩ := List.mem_map.mp hc'
      cases hk : call_key_matches a docId MODEL PROMPT_VERSION hash with
      | true => simp [hk, hvs_pred, updated_call]
      | false => simpa [hk] using hprev a ha
  | none =>
      simp only
      intro c' hc'
      rcases List.mem_append.mp hc' with hold | hnew
      · exact hprev _ hold
      · simp only [List.mem_singleton] at hnew
        subst hnew
        simp [hvs_pred, fresh_call]

theorem upsert_llm_call_hvs_true (db : DB) (rid : Nat) (docId hash : String)
    (rt : Option String) (ve : Option String) (em : Option String) :
    has_validated_success (upsert_llm_call db rid docId hash rt true ve "SUCCESS" em).2 docId hash =
      true := by
  obtain ⟨c, hmem, _, hkey, _, hst, hv, _⟩ :=
    upsert_llm_call_mem db rid docId hash rt true ve "SUCCESS" em
  rw [has_validated_success_eq_any, List.any_eq_true]
  refine ⟨c, hmem, ?_⟩
  simp [hvs_pred, hkey, hst, hv]

theorem upsert_llm_call_count_mono (db : DB) (rid : Nat) (docId hash : String)
    (rt : Option String) (v : Bool) (ve : Option String) (em : Option String) (e : String) :
    count_attempts db e ≤
      count_attempts (upsert_llm_call db rid docId hash rt v ve "FAILED" em).2 e := by
  unfold count_attempts
  unfold upsert_llm_call
  cases hf : db.llm_calls.find? (fun c => call_key_matches c docId MODEL PROMPT_VERSION hash) with
  | some ex =>
      simp only
      apply length_filter_map_mono
      intro a ha
      cases hk : call_key_matches a docId MODEL PROMPT_VERSION hash with
      | false => simpa [hk] using ha
      | true =>
          simp only [hk, if_pos rfl]
          obtain ⟨h1, h2, h3, _⟩ := attempt_counted_iff.mp ha
          exact attempt_counted_iff.mpr ⟨h1, h2, h3, Or.inl rfl⟩
  | none =>
      simp only
      rw [List.filter_append, List.length_append]
      exact Nat.le_add_right _ _

/-! Framing lemmas for `set_doc_status`. -/

theorem set_doc_status_llm_calls (db : DB) (docId st : String) (err : Option String) :
    (set_doc_status db docId st err).llm_calls = db.llm_calls := rfl

theorem set_doc_status_phd_status (db : DB) (docId st : String) (err : Option String) :
    (set_doc_status db docId st err).phd_status = db.phd_status := rfl

theorem set_doc_status_runs (db : DB) (docId st : String) (err : Option String) :
    (set_doc_status db docId st err).runs = db.runs := rfl

theorem set_doc_status_docs_of_other {db : DB} {docId st : String} {err : Option String}
    {d : String} (hd : d ≠ docId) :
    docs_of (set_doc_status db docId st err) d = docs_of db d := by
  unfold docs_of set_doc_status
  simp only
  apply filter_map_of_fix
  · intro a ha
    have had : a.document_id = d := by simpa using ha
    have hk : (a.document_id == docId) = false := by
      rw [had]
      exact beq_eq_false_iff_ne.mpr hd
    simp [hk]
  · intro a
    cases hk : a.document_id == docId with
    | false => simp [hk]
    | true => simp [hk]

theorem set_doc_status_find_self (db : DB) (docId st : String) (err : Option String) :
    (set_doc_status db docId st err).documents.find? (fun x => x.document_id == docId) =
      (db.documents.find? (fun x => x.document_id == docId)).map
        (fun x => { x with status := st, error_message := err }) := by
  unfold set_doc_status
  simp only
  induction db.documents with
  | nil => rfl
  | cons a t ih =>
      rw [List.map_cons]
      cases hk : a.document_id == docId with
      | true =>
          have had : a.document_id = docId := by simpa using hk
          rw [if_pos rfl, find?_cons_explicit, find?_cons_explicit]
          simp [had]
      | false =>
          rw [find?_cons_explicit, find?_cons_explicit]
          simp only [hk, Bool.false_eq_true, if_false]
          exact ih

theorem doc_status_set_self (db : DB) (docId st : String) (err : Option String)
    (hsome : (doc_status db docId).isSome) :
    doc_status (set_doc_status db docId st err) docId = some st := by
  unfold doc_status at hsome ⊢
  rw [set_doc_status_find_self]
  cases hfind : db.documents.find? (fun x => x.document_id == docId) with
  | none => rw [hfind] at hsome; simp at hsome
  | some x => simp

theorem doc_status_set_other {db : DB} {docId st : String} {err : Option String}
    {d : String} (hd : d ≠ docId) :
    doc_status (set_doc_status db docId st err) d = doc_status db d :=
  doc_status_congr (set_doc_status_docs_of_other hd)

theorem set_doc_status_mem_self (db : DB) (docId st : String) (err : Option String)
    (hsome : (doc_status db docId).isSome) :
    ∃ doc ∈ (set_doc_status db docId st err).documents,
      doc.document_id = docId ∧ doc.status = st ∧ doc.error_message = err := by
  unfold doc_status at hsome
  cases hfind : db.documents.find? (fun x => x.document_id == docId) with
  | none => rw [hfind] at hsome; simp at hsome
  | some x =>
      have hx : (x.document_id == docId) = true := by
        have := List.find?_some hfind
        simpa using this
      have hfound : (set_doc_status db docId st err).documents.find?
          (fun x => x.document_id == docId) =
          some { x with status := st, error_message := err } := by
        rw [set_doc_status_find_self, hfind]
        rfl
      refine ⟨{ x with status := st, error_message := err },
        List.mem_of_find?_eq_some hfound, ?_, rfl, rfl⟩
      simpa using hx

/-! Framing lemmas for `upsert_phd_status`. -/

theorem upsert_phd_status_documents (db : DB) (docId : String) (rid : Nat)
    (icp : Option Bool) (emp t s : Option String) (ev : String) (cid : Nat) :
    (upsert_phd_status db docId rid icp emp t s ev cid).documents = db.documents := by
  unfold upsert_phd_status
  split <;> rfl

theorem upsert_phd_status_llm_calls (db : DB) (docId : String) (rid : Nat)
    (icp : Option Bool) (emp t s : Option String) (ev : String) (cid : Nat) :
    (upsert_phd_status db docId rid icp emp t s ev cid).llm_calls = db.llm_calls := by
  unfold upsert_phd_status
  split <;> rfl

theorem upsert_phd_status_runs (db : DB) (docId : String) (rid : Nat)
    (icp : Option Bool) (emp t s : Option String) (ev : String) (cid : Nat) :
    (upsert_phd_status db docId rid icp emp t s ev cid).runs = db.runs := by
  unfold upsert_phd_status
  split <;> rfl

theorem upsert_phd_status_phd_of_other {db : DB} {docId : String} {rid : Nat}
    {icp : Option Bool} {emp t s : Option String} {ev : String} {cid : Nat}
    {d : String} (hd : d ≠ docId) :
    phd_of (upsert_phd_status db docId rid icp emp t s ev cid) d = phd_of db d := by
  unfold phd_of upsert_phd_status
  cases hAny : db.phd_status.any (fun r => r.document_id == docId) with
  | true =>
      rw [if_pos rfl]
      simp only
      apply filter_map_of_fix
      · intro a ha
        have had : a.document_id = d := by simpa using ha
        have hk : (a.document_id == docId) = false := by
          rw [had]
          exact beq_eq_false_iff_ne.mpr hd
        simp [hk]
      · intro a
        cases hk : a.document_id == docId with
        | false => simp [hk]
        | true =>
            have had : a.document_id = docId := by simpa using hk
            have h1 : ((phd_row docId rid icp emp t s ev cid).document_id == d) = false := by
              simpa [phd_row] using beq_eq_false_iff_ne.mpr (fun h => hd h.symm)
            have h2 : (a.document_id == d) = false := by
              rw [had]
              exact beq_eq_false_iff_ne.mpr (fun h => hd h.symm)
            simp [hk, h1, h2]
  | false =>
      rw [if_neg Bool.false_ne_true]
      simp only
      rw [List.filter_append]
      have h1 : ((phd_row docId rid icp emp t s ev cid).document_id == d) = false := by
        simpa [phd_row] using beq_eq_false_iff_ne.mpr (fun h => hd h.symm)
      simp [h1]

theorem length_filter_le_one_of_pairwise {α : Type} (p : α → Bool) (l : List α)
    (h : l.Pairwise (fun a b => ¬(p a = true ∧ p b = true))) :
    (l.filter p).length ≤ 1 := by
  induction l with
  | nil => exact Nat.zero_le 1
  | cons a t ih =>
      rw [List.pairwise_cons] at h
      obtain ⟨hrel, htail⟩ := h
      cases hpa : p a with
      | false => simpa [List.filter_cons, hpa] using ih htail
      | true =>
          have hnil : t.filter p = [] := by
            apply List.filter_eq_nil_iff.mpr
            intro b hb hpb
            exact hrel b hb ⟨hpa, hpb⟩
          simp [List.filter_cons, hpa, hnil]

theorem upsert_phd_status_self (db : DB) (docId : String) (rid : Nat)
    (icp : Option Bool) (emp t s : Option String) (ev : String) (cid : Nat)
    (hu : phd_doc_unique db) :
    phd_of (upsert_phd_status db docId rid icp emp t s ev cid) docId =
      [phd_row docId rid icp emp t s ev cid] ∧
    phd_doc_unique (upsert_phd_status db docId rid icp emp t s ev cid) := by
  have hrowid : (phd_row docId rid icp emp t s ev cid).document_id = docId := rfl
  unfold phd_of upsert_phd_status phd_doc_unique
  unfold phd_doc_unique at hu
  cases hAny : db.phd_status.any (fun r => r.document_id == docId) with
  | false =>
      rw [if_neg Bool.false_ne_true]
      simp only
      constructor
      · rw [List.filter_append]
        have hnil : db.phd_status.filter (fun r => r.document_id == docId) = [] := by
          apply List.filter_eq_nil_iff.mpr
          intro b hb hpb
          rw [List.any_eq_false] at hAny
          exact hAny b hb hpb
        simp [hnil, hrowid]
      · rw [List.pairwise_append]
        refine ⟨hu, List.pairwise_singleton _ _, ?_⟩
        intro a ha b hb
        simp only [List.mem_singleton] at hb
        subst hb
        rw [List.any_eq_false] at hAny
        intro heq
        exact hAny a ha (by simp [heq, hrowid])
  | true =>
      rw [if_pos rfl]
      simp only
      have hp : ∀ a : PhdStatusRow,
          ((if a.document_id == docId then phd_row docId rid icp emp t s ev cid
            else a).document_id == docId) = (a.document_id == docId) := by
        intro a
        cases hk : a.document_id == docId with
        | false => simp [hk]
        | true => simp [hk, hrowid]
      constructor
      · rw [filter_map_comm _ _ _ hp]
        have hle : (db.phd_status.filter (fun r => r.document_id == docId)).length ≤ 1 := by
          apply length_filter_le_one_of_pairwise
          refine hu.imp ?_
          intro a b hab ⟨hpa, hpb⟩
          have ha' : a.document_id = docId := by simpa using hpa
          have hb' : b.document_id = docId := by simpa using hpb
          exact hab (ha'.trans hb'.symm)
        have hpos : 0 < (db.phd_status.filter (fun r => r.document_id == docId)).length := by
          rw [List.any_eq_true] at hAny
          obtain ⟨a, ha, hpa⟩ := hAny
          exact List.length_pos.mpr (List.ne_nil_of_mem (List.mem_filter.mpr ⟨ha, hpa⟩))
        have hone : (db.phd_status.filter (fun r => r.document_id == docId)).length = 1 :=
          Nat.le_antisymm hle hpos
        obtain ⟨r, hr⟩ := List.length_eq_one.mp hone
        rw [hr]
        have hpr : (r.document_id == docId) = true := by
          have : r ∈ db.phd_status.filter (fun r => r.document_id == docId) := by
            rw [hr]; exact List.mem_singleton.mpr rfl
          exact (List.mem_filter.mp this).2
        have hprop : r.document_id = docId := by simpa using hpr
        simp [hprop]
      · rw [List.pairwise_map]
        refine hu.imp ?_
        intro a b hab heq
        apply hab
        have keep : ∀ c : PhdStatusRow,
            (if c.document_id == docId then phd_row docId rid icp emp t s ev cid
             else c).document_id = c.document_id := by
          intro c
          cases hk : c.document_id == docId with
          | false => simp [hk]
          | true =>
              have : c.document_id = docId := by simpa using hk
              simp [hk, hrowid, this]
        rw [keep a, keep b] at heq
        exact heq

theorem upsert_phd_status_mem (db : DB) (docId : String) (rid : Nat)
    (icp : Option Bool) (emp t s : Option String) (ev : String) (cid : Nat) :
    ∃ r ∈ (upsert_phd_status db docId rid icp emp t s ev cid).phd_status,
      r.document_id = docId := by
  unfold upsert_phd_status
  cases hAny : db.phd_status.any (fun r => r.document_id == docId) with
  | false =>
      rw [if_neg Bool.false_ne_true]
      exact ⟨phd_row docId rid icp emp t s ev cid, by simp, rfl⟩
  | true =>
      rw [if_pos rfl]
      rw [List.any_eq_true] at hAny
      obtain ⟨a, ha, hpa⟩ := hAny
      refine ⟨phd_row docId rid icp emp t s ev cid, ?_, rfl⟩
      simp only
      exact List.mem_map.mpr ⟨a, ha, by simp [hpa]⟩

/-! Run-ledger framing. -/

theorem create_run_documents (db : DB) : (create_run db).2.documents = db.documents := rfl

theorem create_run_llm_calls (db : DB) : (create_run db).2.llm_calls = db.llm_calls := rfl

theorem create_run_phd_status (db : DB) : (create_run db).2.phd_status = db.phd_status := rfl

theorem finish_run_documents (db : DB) (rid : Nat) (st : String) (err : Option String) :
    (finish_run db rid st err).documents = db.documents := rfl

theorem finish_run_llm_calls (db : DB) (rid : Nat) (st : String) (err : Option String) :
    (finish_run db rid st err).llm_calls = db.llm_calls := rfl

theorem finish_run_phd_status (db : DB) (rid : Nat) (st : String) (err : Option String) :
    (finish_run db rid st err).phd_status = db.phd_status := rfl

/-! Lemmas about `process_document`. -/

theorem process_document_skip_guard (env : Env) (db : DB) (rid : Nat) (d : String)
    (h : env.max_doc_attempts ≤ count_attempts db d) :
    process_document env db rid d = (db, 0) := by
  unfold process_document
  rw [if_pos h]

theorem process_document_skip_roles (env : Env) (db : DB) (rid : Nat) (d : String)
    (h : env.roles_rows d = []) :
    process_document env db rid d = (db, 0) := by
  unfold process_document
  by_cases hg : env.max_doc_attempts ≤ count_attempts db d
  · rw [if_pos hg]
  · rw [if_neg hg, if_pos h]

theorem process_document_skip_hvs (env : Env) (db : DB) (rid : Nat) (d : String)
    (hvs : has_validated_success db d (doc_fingerprint env d) = true) :
    process_document env db rid d = (db, 0) := by
  unfold process_document
  split
  · rfl
  split
  · rfl
  simp [hvs]

/-- Case-analysis principle for one iteration of the per-document loop:
every possible result of `process_document` is one of a skip (store and
call count untouched), the service-failure path, the
validation-exception path, the invalid-output path, or the enrichment
path, with the exact store each path writes. -/
theorem process_document_cases (env : Env) (db : DB) (rid : Nat) (d : String)
    (motive : DB × Nat → Prop)
    (hskip : motive (db, 0))
    (hfail : ∀ e,
      (ollama_chat env.ollama_max_retries (env.service (doc_prompt env d))).1 = Except.error e →
      has_validated_success db d (doc_fingerprint env d) = false →
      motive (set_doc_status
          (upsert_llm_call db rid d (doc_fingerprint env d) none false none "FAILED" (some e)).2
          d "FAILED" (some e),
        (ollama_chat env.ollama_max_retries (env.service (doc_prompt env d))).2))
    (hraised : ∀ rt e,
      (ollama_chat env.ollama_max_retries (env.service (doc_prompt env d))).1 = Except.ok rt →
      run_validation env.json_loads rt = ValidateOutcome.raised e →
      has_validated_success db d (doc_fingerprint env d) = false →
      motive (set_doc_status
          (upsert_llm_call db rid d (doc_fingerprint env d) none false none "FAILED" (some e)).2
          d "FAILED" (some e),
        (ollama_chat env.ollama_max_retries (env.service (doc_prompt env d))).2))
    (hbad : ∀ rt validated verrs rj parsed,
      (ollama_chat env.ollama_max_retries (env.service (doc_prompt env d))).1 = Except.ok rt →
      run_validation env.json_loads rt = ValidateOutcome.handled validated verrs rj parsed →
      (∀ p, validated = true → parsed = some p → False) →
      has_validated_success db d (doc_fingerprint env d) = false →
      motive (set_doc_status
          (upsert_llm_call db rid d (doc_fingerprint env d) (some rt) validated verrs
            (if validated then "SUCCESS" else "FAILED")
            (if validated then none
             else some ("Validation failed: " ++ pyShow verrs))).2
          d "FAILED" (some ("LLM output invalid: " ++ pyShow verrs)),
        (ollama_chat env.ollama_max_retries (env.service (doc_prompt env d))).2))
    (hgood : ∀ rt verrs rj p,
      (ollama_chat env.ollama_max_retries (env.service (doc_prompt env d))).1 = Except.ok rt →
      run_validation env.json_loads rt = ValidateOutcome.handled true verrs rj (some p) →
      has_validated_success db d (doc_fingerprint env d) = false →
      motive (set_doc_status
          (upsert_phd_status
            (upsert_llm_call db rid d (doc_fingerprint env d) (some rt) true verrs
              "SUCCESS" none).2
            d rid p.is_current_phd p.current_employer p.current_title p.since_month p.evidence
            (upsert_llm_call db rid d (doc_fingerprint env d) (some rt) true verrs
              "SUCCESS" none).1)
          d "ENRICHED" none,
        (ollama_chat env.ollama_max_retries (env.service (doc_prompt env d))).2)) :
    motive (process_document env db rid d) := by
  unfold process_document
  by_cases hg : env.max_doc_attempts ≤ count_attempts db d
  · rw [if_pos hg]
    exact hskip
  rw [if_neg hg]
  by_cases hr : env.roles_rows d = []
  · rw [if_pos hr]
    exact hskip
  rw [if_neg hr]
  cases hvs : has_validated_success db d (doc_fingerprint env d) with
  | true =>
      simp only [hvs]
      exact hskip
  | false =>
      simp only [hvs]
      rw [if_neg Bool.false_ne_true]
      split
      next e hoc => exact hfail e hoc hvs
      next rt hoc =>
        split
        next e hval => exact hraised rt e hoc hval hvs
        next validated verrs rj parsed hval =>
          cases validated with
          | true =>
              cases parsed with
              | some p => exact hgood rt verrs rj p hoc hval hvs
              | none =>
                  exact hbad rt true verrs rj none hoc hval
                    (fun p _ h => Option.noConfusion h) hvs
          | false =>
              exact hbad rt false verrs rj parsed hoc hval
                (fun p h _ => Bool.noConfusion h) hvs

theorem process_document_llm_filter (env : Env) (db : DB) (rid : Nat) (dp d : String)
    (p : LlmCall → Bool) (hd : d ≠ dp) (hp : ∀ c, p c = true → c.document_id = d) :
    (process_document env db rid dp).1.llm_calls.filter p = db.llm_calls.filter p := by
  refine process_document_cases env db rid dp
    (fun r => r.1.llm_calls.filter p = db.llm_calls.filter p) rfl ?_ ?_ ?_ ?_
  · intro e _ _
    rw [set_doc_status_llm_calls]
    exact upsert_llm_call_filter_other hd hp
  · intro rt e _ _ _
    rw [set_doc_status_llm_calls]
    exact upsert_llm_call_filter_other hd hp
  · intro rt validated verrs rj parsed _ _ _ _
    rw [set_doc_status_llm_calls]
    exact upsert_llm_call_filter_other hd hp
  · intro rt verrs rj q _ _ _
    rw [set_doc_status_llm_calls, upsert_phd_status_llm_calls]
    exact upsert_llm_call_filter_other hd hp

theorem docs_of_eq_of_documents {X Y : DB} (h : X.documents = Y.documents) (d : String) :
    docs_of X d = docs_of Y d := by
  unfold docs_of
  rw [h]

theorem calls_of_eq_of_llm_calls {X Y : DB} (h : X.llm_calls = Y.llm_calls) (d : String) :
    calls_of X d = calls_of Y d := by
  unfold calls_of
  rw [h]

theorem phd_of_eq_of_phd {X Y : DB} (h : X.phd_status = Y.phd_status) (d : String) :
    phd_of X d = phd_of Y d := by
  unfold phd_of
  rw [h]

theorem doc_status_eq_of_documents {X Y : DB} (h : X.documents = Y.documents) (d : String) :
    doc_status X d = doc_status Y d := by
  unfold doc_status
  rw [h]

theorem process_document_docs_of (env : Env) (db : DB) (rid : Nat) (dp d : String)
    (hd : d ≠ dp) :
    docs_of (process_document env db rid dp).1 d = docs_of db d := by
  refine process_document_cases env db rid dp
    (fun r => docs_of r.1 d = docs_of db d) rfl ?_ ?_ ?_ ?_
  · intro e _ _
    exact (set_doc_status_docs_of_other hd).trans
      (docs_of_eq_of_documents (upsert_llm_call_documents _ _ _ _ _ _ _ _ _) d)
  · intro rt e _ _ _
    exact (set_doc_status_docs_of_other hd).trans
      (docs_of_eq_of_documents (upsert_llm_call_documents _ _ _ _ _ _ _ _ _) d)
  · intro rt validated verrs rj parsed _ _ _ _
    exact (set_doc_status_docs_of_other hd).trans
      (docs_of_eq_of_documents (upsert_llm_call_documents _ _ _ _ _ _ _ _ _) d)
  · intro rt verrs rj q _ _ _
    exact (set_doc_status_docs_of_other hd).trans
      ((docs_of_eq_of_documents (upsert_phd_status_documents _ _ _ _ _ _ _ _ _) d).trans
        (docs_of_eq_of_documents (upsert_llm_call_documents _ _ _ _ _ _ _ _ _) d))

theorem process_document_phd_of (env : Env) (db : DB) (rid : Nat) (dp d : String)
    (hd : d ≠ dp) :
    phd_of (process_document env db rid dp).1 d = phd_of db d := by
  refine process_document_cases env db rid dp
    (fun r => phd_of r.1 d = phd_of db d) rfl ?_ ?_ ?_ ?_
  · intro e _ _
    exact (phd_of_eq_of_phd (set_doc_status_phd_status _ _ _ _) d).trans
      (phd_of_eq_of_phd (upsert_llm_call_phd_status _ _ _ _ _ _ _ _ _) d)
  · intro rt e _ _ _
    exact (phd_of_eq_of_phd (set_doc_status_phd_status _ _ _ _) d).trans
      (phd_of_eq_of_phd (upsert_llm_call_phd_status _ _ _ _ _ _ _ _ _) d)
  · intro rt validated verrs rj parsed _ _ _ _
    exact (phd_of_eq_of_phd (set_doc_status_phd_status _ _ _ _) d).trans
      (phd_of_eq_of_phd (upsert_llm_call_phd_status _ _ _ _ _ _ _ _ _) d)
  · intro rt verrs rj q _ _ _
    exact (phd_of_eq_of_phd (set_doc_status_phd_status _ _ _ _) d).trans
      ((upsert_phd_status_phd_of_other hd).trans
        (phd_of_eq_of_phd (upsert_llm_call_phd_status _ _ _ _ _ _ _ _ _) d))

theorem process_document_doc_status (env : Env) (db : DB) (rid : Nat) (dp d : String)
    (hd : d ≠ dp) :
    doc_status (process_document env db rid dp).1 d = doc_status db d := by
  refine process_document_cases env db rid dp
    (fun r => doc_status r.1 d = doc_status db d) rfl ?_ ?_ ?_ ?_
  · intro e _ _
    exact (doc_status_set_other hd).trans
      (doc_status_eq_of_documents (upsert_llm_call_documents _ _ _ _ _ _ _ _ _) d)
  · intro rt e _ _ _
    exact (doc_status_set_other hd).trans
      (doc_status_eq_of_documents (upsert_llm_call_documents _ _ _ _ _ _ _ _ _) d)
  · intro rt validated verrs rj parsed _ _ _ _
    exact (doc_status_set_other hd).trans
      (doc_status_eq_of_documents (upsert_llm_call_documents _ _ _ _ _ _ _ _ _) d)
  · intro rt verrs rj q _ _ _
    exact (doc_status_set_other hd).trans
      ((doc_status_eq_of_documents (upsert_phd_status_documents _ _ _ _ _ _ _ _ _) d).trans
        (doc_status_eq_of_documents (upsert_llm_call_documents _ _ _ _ _ _ _ _ _) d))

theorem process_document_runs (env : Env) (db : DB) (rid : Nat) (dp : String) :
    (process_document env db rid dp).1.runs = db.runs := by
  refine process_document_cases env db rid dp
    (fun r => r.1.runs = db.runs) rfl ?_ ?_ ?_ ?_
  · intro e _ _
    exact (set_doc_status_runs _ _ _ _).trans (upsert_llm_call_runs _ _ _ _ _ _ _ _ _)
  · intro rt e _ _ _
    exact (set_doc_status_runs _ _ _ _).trans (upsert_llm_call_runs _ _ _ _ _ _ _ _ _)
  · intro rt validated verrs rj parsed _ _ _ _
    exact (set_doc_status_runs _ _ _ _).trans (upsert_llm_call_runs _ _ _ _ _ _ _ _ _)
  · intro rt verrs rj q _ _ _
    exact (set_doc_status_runs _ _ _ _).trans
      ((upsert_phd_status_runs _ _ _ _ _ _ _ _ _).trans
        (upsert_llm_call_runs _ _ _ _ _ _ _ _ _))

theorem process_document_calls_of (env : Env) (db : DB) (rid : Nat) (dp d : String)
    (hd : d ≠ dp) :
    calls_of (process_document env db rid dp).1 d = calls_of db d :=
  process_document_llm_filter env db rid dp d _ hd (fun c hc => by simpa using hc)

theorem process_document_count_other (env : Env) (db : DB) (rid : Nat) (dp d : String)
    (hd : d ≠ dp) :
    count_attempts (process_document env db rid dp).1 d = count_attempts db d :=
  count_attempts_congr (process_document_calls_of env db rid dp d hd)

theorem process_document_hvs_other (env : Env) (db : DB) (rid : Nat) (dp d : String)
    (hash : String) (hd : d ≠ dp) :
    has_validated_success (process_document env db rid dp).1 d hash =
      has_validated_success db d hash :=
  has_validated_success_congr hash (process_document_calls_of env db rid dp d hd)

/-! Lemmas about `process_docs` and `run_pipeline`. -/

theorem process_docs_frame (env : Env) (rid : Nat) (d : String) :
    ∀ (l : List String) (db : DB), d ∉ l →
      docs_of (process_docs env rid db l).1 d = docs_of db d ∧
      calls_of (process_docs env rid db l).1 d = calls_of db d ∧
      phd_of (process_docs env rid db l).1 d = phd_of db d := by
  intro l
  induction l with
  | nil => exact fun db _ => ⟨rfl, rfl, rfl⟩
  | cons a t ih =>
      intro db hnot
      have hda : d ≠ a := fun h => hnot (h ▸ List.mem_cons_self a t)
      have hnt : d ∉ t := fun h => hnot (List.mem_cons_of_mem a h)
      obtain ⟨h1, h2, h3⟩ := ih (process_document env db rid a).1 hnt
      exact ⟨h1.trans (process_document_docs_of env db rid a d hda),
        h2.trans (process_document_calls_of env db rid a d hda),
        h3.trans (process_document_phd_of env db rid a d hda)⟩

theorem process_docs_doc_status (env : Env) (rid : Nat) (d : String) :
    ∀ (l : List String) (db : DB), d ∉ l →
      doc_status (process_docs env rid db l).1 d = doc_status db d := by
  intro l
  induction l with
  | nil => exact fun db _ => rfl
  | cons a t ih =>
      intro db hnot
      have hda : d ≠ a := fun h => hnot (h ▸ List.mem_cons_self a t)
      have hnt : d ∉ t := fun h => hnot (List.mem_cons_of_mem a h)
      exact (ih (process_document env db rid a).1 hnt).trans
        (process_document_doc_status env db rid a d hda)

theorem process_docs_runs (env : Env) (rid : Nat) :
    ∀ (l : List String) (db : DB), (process_docs env rid db l).1.runs = db.runs := by
  intro l
  induction l with
  | nil => exact fun db => rfl
  | cons a t ih =>
      intro db
      exact (ih (process_document env db rid a).1).trans (process_document_runs env db rid a)

theorem process_docs_log_keys (env : Env) (rid : Nat) :
    ∀ (l : List String) (db : DB), (process_docs env rid db l).2.map Prod.fst = l := by
  intro l
  induction l with
  | nil => exact fun db => rfl
  | cons a t ih =>
      intro db
      show a :: (process_docs env rid (process_document env db rid a).1 t).2.map Prod.fst = a :: t
      rw [ih]

theorem process_docs_hvs (env : Env) (rid : Nat) (d : String) :
    ∀ (l : List String) (db : DB),
      has_validated_success db d (doc_fingerprint env d) = true →
      docs_of (process_docs env rid db l).1 d = docs_of db d ∧
      calls_of (process_docs env rid db l).1 d = calls_of db d ∧
      phd_of (process_docs env rid db l).1 d = phd_of db d ∧
      ∀ pr ∈ (process_docs env rid db l).2, pr.1 = d → pr.2 = 0 := by
  intro l
  induction l with
  | nil =>
      intro db _
      exact ⟨rfl, rfl, rfl, fun pr hpr => absurd hpr (List.not_mem_nil pr)⟩
  | cons a t ih =>
      intro db hvs
      by_cases hda : a = d
      · subst hda
        have hskip := process_document_skip_hvs env db rid a hvs
        obtain ⟨h1, h2, h3, h4⟩ := ih (process_document env db rid a).1
          (by rw [hskip]; exact hvs)
        refine ⟨h1.trans (by rw [hskip]), h2.trans (by rw [hskip]),
          h3.trans (by rw [hskip]), ?_⟩
        intro pr hpr
        have hpr' : pr = (a, (process_document env db rid a).2) ∨
            pr ∈ (process_docs env rid (process_document env db rid a).1 t).2 :=
          List.mem_cons.mp hpr
        rcases hpr' with rfl | htail
        · intro _
          rw [hskip]
        · exact h4 pr htail
      · have hd' : d ≠ a := fun h => hda h.symm
        have hvs1 : has_validated_success (process_document env db rid a).1 d
            (doc_fingerprint env d) = true := by
          rw [process_document_hvs_other env db rid a d _ hd']
          exact hvs
        obtain ⟨h1, h2, h3, h4⟩ := ih (process_document env db rid a).1 hvs1
        refine ⟨h1.trans (process_document_docs_of env db rid a d hd'),
          h2.trans (process_document_calls_of env db rid a d hd'),
          h3.trans (process_document_phd_of env db rid a d hd'), ?_⟩
        intro pr hpr
        have hpr' : pr = (a, (process_document env db rid a).2) ∨
            pr ∈ (process_docs env rid (process_document env db rid a).1 t).2 :=
          List.mem_cons.mp hpr
        rcases hpr' with rfl | htail
        · intro heq
          exact absurd heq.symm hd'
        · exact h4 pr htail

/-! Selector lemmas. -/

theorem mem_insertIngestedDesc (x d : Document) (l : List Document) :
    x ∈ insertIngestedDesc d l ↔ x = d ∨ x ∈ l := by
  induction l with
  | nil => simp [insertIngestedDesc]
  | cons a t ih =>
      unfold insertIngestedDesc
      cases hb : Nat.ble a.ingested_at d.ingested_at with
      | true =>
          simp only [hb, if_pos rfl]
          simp [List.mem_cons, or_comm, or_assoc, or_left_comm]
      | false =>
          rw [if_neg Bool.false_ne_true]
          simp [List.mem_cons, ih, or_left_comm]

theorem mem_sortIngestedDesc (x : Document) (l : List Document) :
    x ∈ sortIngestedDesc l ↔ x ∈ l := by
  induction l with
  | nil => simp [sortIngestedDesc]
  | cons a t ih =>
      unfold sortIngestedDesc
      rw [mem_insertIngestedDesc]
      simp [ih]

theorem mem_select_documents {db : DB} {m : Nat} {d : String} :
    d ∈ select_documents db m ↔
      ∃ doc ∈ db.documents, doc.document_id = d ∧ doc_eligible db m doc = true := by
  unfold select_documents
  constructor
  · intro h
    obtain ⟨doc, hmem, hid⟩ := List.mem_map.mp h
    have := (mem_sortIngestedDesc doc _).mp hmem
    obtain ⟨h1, h2⟩ := List.mem_filter.mp this
    exact ⟨doc, h1, hid, h2⟩
  · intro ⟨doc, h1, hid, h2⟩
    exact List.mem_map.mpr ⟨doc, (mem_sortIngestedDesc doc _).mpr
      (List.mem_filter.mpr ⟨h1, h2⟩), hid⟩

theorem not_selected_of_failed_exhausted (db : DB) (m : Nat) (d : String)
    (hmax : m ≤ count_attempts db d)
    (hfailed : ∀ doc ∈ db.documents, doc.document_id = d → doc.status = "FAILED") :
    d ∉ select_documents db m := by
  intro hmem
  obtain ⟨doc, hdoc, hid, helig⟩ := mem_select_documents.mp hmem
  have hst := hfailed doc hdoc hid
  unfold doc_eligible at helig
  rw [hst, hid] at helig
  have e1 : (("FAILED" : String) == "PARSED") = false := by decide
  have e2 : (("FAILED" : String) == "NEEDS_REVIEW") = false := by decide
  have e3 : (("FAILED" : String) == "FAILED") = true := by decide
  simp only [e1, e2, e3, Bool.false_or, Bool.true_and, decide_eq_true_eq] at helig
  exact absurd helig (Nat.not_lt.mpr hmax)

theorem mem_docs_of {db : DB} {d : String} {doc : Document} :
    doc ∈ docs_of db d ↔ doc ∈ db.documents ∧ doc.document_id = d := by
  unfold docs_of
  rw [List.mem_filter]
  simp

/-- One pipeline run preserves "every row of this document is FAILED and
its budget is exhausted": such a document is not selected, hence never
touched. -/
theorem run_preserves_exhausted_failed (env : Env) (db : DB) (d : String)
    (hmax : env.max_doc_attempts ≤ count_attempts db d)
    (hfailed : ∀ doc ∈ db.documents, doc.document_id = d → doc.status = "FAILED") :
    env.max_doc_attempts ≤ count_attempts (run_pipeline env db).db d ∧
    (∀ doc ∈ (run_pipeline env db).db.documents, doc.document_id = d →
      doc.status = "FAILED") := by
  unfold run_pipeline
  cases hsel : env.selector_error with
  | some e => exact ⟨hmax, hfailed⟩
  | none =>
      have hmax2 : env.max_doc_attempts ≤ count_attempts (create_run db).2 d := hmax
      have hfailed2 : ∀ doc ∈ (create_run db).2.documents, doc.document_id = d →
          doc.status = "FAILED" := hfailed
      have hnot : d ∉ select_documents (create_run db).2 env.max_doc_attempts :=
        not_selected_of_failed_exhausted _ _ _ hmax2 hfailed2
      obtain ⟨hdocs, hcalls, _⟩ := process_docs_frame env (create_run db).1 d
        (select_documents (create_run db).2 env.max_doc_attempts) (create_run db).2 hnot
      constructor
      · have : count_attempts
            (process_docs env (create_run db).1 (create_run db).2
              (select_documents (create_run db).2 env.max_doc_attempts)).1 d =
            count_attempts (create_run db).2 d := count_attempts_congr hcalls
        exact this ▸ hmax2
      · intro doc hmem hid
        have hm2 : doc ∈ docs_of
            (process_docs env (create_run db).1 (create_run db).2
              (select_documents (create_run db).2 env.max_doc_attempts)).1 d :=
          mem_docs_of.mpr ⟨hmem, hid⟩
        rw [hdocs] at hm2
        exact hfailed2 doc (mem_docs_of.mp hm2).1 hid

theorem iterate_preserves_exhausted_failed (env : Env) (d : String) :
    ∀ (n : Nat) (db : DB),
      env.max_doc_attempts ≤ count_attempts db d →
      (∀ doc ∈ db.documents, doc.document_id = d → doc.status = "FAILED") →
      env.max_doc_attempts ≤ count_attempts (iterate_runs env db n) d ∧
      (∀ doc ∈ (iterate_runs env db n).documents, doc.document_id = d →
        doc.status = "FAILED") := by
  intro n
  induction n with
  | zero => exact fun db h1 h2 => ⟨h1, h2⟩
  | succ k ih =>
      intro db h1 h2
      obtain ⟨h1', h2'⟩ := run_preserves_exhausted_failed env db d h1 h2
      exact ih (run_pipeline env db).db h1' h2'

/-! Shape of the validator outcome, and enrichment-invariant helpers. -/

theorem run_validation_shape (jl : String → Option Json) (rt : String) :
    (∃ msg, run_validation jl rt = ValidateOutcome.raised msg) ∨
    (∃ e rj, run_validation jl rt = ValidateOutcome.handled false e rj none) ∨
    (∃ rj p, run_validation jl rt = ValidateOutcome.handled true none rj (some p)) := by
  unfold run_validation
  split
  · exact Or.inr (Or.inl ⟨_, _, rfl⟩)
  split
  · split
    · exact Or.inr (Or.inl ⟨_, _, rfl⟩)
    next p hpeq =>
      by_cases hn : p.is_current_phd = none
      · rw [if_pos hn]
        exact Or.inr (Or.inl ⟨_, _, rfl⟩)
      · rw [if_neg hn]
        exact Or.inr (Or.inr ⟨_, p, rfl⟩)
  · exact Or.inl ⟨_, rfl⟩

theorem keys_unique_eq_of_llm_calls {X Y : DB} (h : X.llm_calls = Y.llm_calls) :
    llm_keys_unique X ↔ llm_keys_unique Y := by
  unfold llm_keys_unique
  rw [h]

theorem process_document_keys_unique (env : Env) (db : DB) (rid : Nat) (d : String)
    (hu : llm_keys_unique db) :
    llm_keys_unique (process_document env db rid d).1 := by
  refine process_document_cases env db rid d (fun r => llm_keys_unique r.1) hu ?_ ?_ ?_ ?_
  · intro e _ _
    exact (keys_unique_eq_of_llm_calls (set_doc_status_llm_calls _ _ _ _)).mpr
      (upsert_llm_call_keys_unique _ _ _ _ _ _ _ _ _ hu)
  · intro rt e _ _ _
    exact (keys_unique_eq_of_llm_calls (set_doc_status_llm_calls _ _ _ _)).mpr
      (upsert_llm_call_keys_unique _ _ _ _ _ _ _ _ _ hu)
  · intro rt validated verrs rj parsed _ _ _ _
    exact (keys_unique_eq_of_llm_calls (set_doc_status_llm_calls _ _ _ _)).mpr
      (upsert_llm_call_keys_unique _ _ _ _ _ _ _ _ _ hu)
  · intro rt verrs rj q _ _ _
    exact (keys_unique_eq_of_llm_calls (set_doc_status_llm_calls _ _ _ _)).mpr
      ((keys_unique_eq_of_llm_calls (upsert_phd_status_llm_calls _ _ _ _ _ _ _ _ _)).mpr
        (upsert_llm_call_keys_unique _ _ _ _ _ _ _ _ _ hu))

theorem process_docs_keys_unique (env : Env) (rid : Nat) :
    ∀ (l : List String) (db : DB), llm_keys_unique db →
      llm_keys_unique (process_docs env rid db l).1 := by
  intro l
  induction l with
  | nil => exact fun db h => h
  | cons a t ih =>
      intro db h
      exact ih (process_document env db rid a).1 (process_document_keys_unique env db rid a h)

theorem run_pipeline_keys_unique (env : Env) (db : DB) (hu : llm_keys_unique db) :
    llm_keys_unique (run_pipeline env db).db := by
  unfold run_pipeline
  cases env.selector_error with
  | some e => exact hu
  | none =>
      have : llm_keys_unique (create_run db).2 := hu
      exact (keys_unique_eq_of_llm_calls (finish_run_llm_calls _ _ _ _)).mpr
        (process_docs_keys_unique env (create_run db).1 _ (create_run db).2 this)

theorem doc_status_after_set_on (db X : DB) (d st : String) (err : Option String)
    (hdoc : X.documents = db.documents) (hsome : (doc_status db d).isSome) :
    doc_status (set_doc_status X d st err) d = some st := by
  apply doc_status_set_self
  rw [doc_status_eq_of_documents hdoc d]
  exact hsome

theorem hvs_set_doc (X : DB) (dd st : String) (err : Option String) (d h : String) :
    has_validated_success (set_doc_status X dd st err) d h = has_validated_success X d h :=
  has_validated_success_congr h (calls_of_eq_of_llm_calls (set_doc_status_llm_calls X dd st err) d)

theorem hvs_upsert_phd (X : DB) (dd : String) (rid : Nat) (icp : Option Bool)
    (emp t s : Option String) (ev : String) (cid : Nat) (d h : String) :
    has_validated_success (upsert_phd_status X dd rid icp emp t s ev cid) d h =
      has_validated_success X d h :=
  has_validated_success_congr h
    (calls_of_eq_of_llm_calls (upsert_phd_status_llm_calls X dd rid icp emp t s ev cid) d)

theorem process_document_enriched_iff (env : Env) (db : DB) (rid : Nat) (d : String)
    (hsome : (doc_status db d).isSome) (hne : doc_status db d ≠ some "ENRICHED") :
    (doc_status (process_document env db rid d).1 d = some "ENRICHED") ↔
      (has_validated_success (process_document env db rid d).1 d (doc_fingerprint env d) = true ∧
       has_validated_success db d (doc_fingerprint env d) = false) := by
  refine process_document_cases env db rid d (fun r =>
    (doc_status r.1 d = some "ENRICHED") ↔
      (has_validated_success r.1 d (doc_fingerprint env d) = true ∧
       has_validated_success db d (doc_fingerprint env d) = false)) ?_ ?_ ?_ ?_ ?_
  · exact iff_of_false hne (fun h => Bool.noConfusion (h.1.symm.trans h.2))
  · intro e _ hvs0
    refine iff_of_false ?_ ?_
    · rw [doc_status_after_set_on db _ d _ _ (upsert_llm_call_documents _ _ _ _ _ _ _ _ _) hsome]
      simp
    · intro h
      rw [hvs_set_doc, upsert_llm_call_hvs_false _ _ _ _ _ _ _ _ hvs0] at h
      exact Bool.noConfusion h.1
  · intro rt e _ _ hvs0
    refine iff_of_false ?_ ?_
    · rw [doc_status_after_set_on db _ d _ _ (upsert_llm_call_documents _ _ _ _ _ _ _ _ _) hsome]
      simp
    · intro h
      rw [hvs_set_doc, upsert_llm_call_hvs_false _ _ _ _ _ _ _ _ hvs0] at h
      exact Bool.noConfusion h.1
  · intro rt validated verrs rj parsed _ hval hnot hvs0
    have hvfalse : validated = false := by
      rcases run_validation_shape env.json_loads rt with ⟨msg, hsh⟩ | ⟨e, rj2, hsh⟩ | ⟨rj2, p, hsh⟩
      · rw [hval] at hsh
        exact ValidateOutcome.noConfusion hsh
      · rw [hval] at hsh
        exact (ValidateOutcome.handled.inj hsh).1
      · rw [hval] at hsh
        obtain ⟨h1, _, _, h4⟩ := ValidateOutcome.handled.inj hsh
        exact (hnot p h1 h4).elim
    subst hvfalse
    refine iff_of_false ?_ ?_
    · rw [doc_status_after_set_on db _ d _ _ (upsert_llm_call_documents _ _ _ _ _ _ _ _ _) hsome]
      simp
    · intro h
      rw [hvs_set_doc, upsert_llm_call_hvs_false _ _ _ _ _ _ _ _ hvs0] at h
      exact Bool.noConfusion h.1
  · intro rt verrs rj p _ _ hvs0
    refine iff_of_true ?_ ?_
    · exact doc_status_after_set_on db _ d _ _
        ((upsert_phd_status_documents _ _ _ _ _ _ _ _ _).trans
          (upsert_llm_call_documents _ _ _ _ _ _ _ _ _)) hsome
    · constructor
      · rw [hvs_set_doc, hvs_upsert_phd]
        exact upsert_llm_call_hvs_true _ _ _ _ _ _ _
      · exact hvs0

theorem process_document_enriched_phd (env : Env) (db : DB) (rid : Nat) (d : String)
    (hsome : (doc_status db d).isSome) (hne : doc_status db d ≠ some "ENRICHED") :
    doc_status (process_document env db rid d).1 d = some "ENRICHED" →
      ∃ r ∈ (process_document env db rid d).1.phd_status, r.document_id = d := by
  refine process_document_cases env db rid d (fun r =>
    doc_status r.1 d = some "ENRICHED" →
      ∃ x ∈ r.1.phd_status, x.document_id = d) ?_ ?_ ?_ ?_ ?_
  · exact fun h => absurd h hne
  · intro e _ _ h
    rw [doc_status_after_set_on db _ d _ _ (upsert_llm_call_documents _ _ _ _ _ _ _ _ _)
      hsome] at h
    simp at h
  · intro rt e _ _ _ h
    rw [doc_status_after_set_on db _ d _ _ (upsert_llm_call_documents _ _ _ _ _ _ _ _ _)
      hsome] at h
    simp at h
  · intro rt validated verrs rj parsed _ _ _ _ h
    rw [doc_status_after_set_on db _ d _ _ (upsert_llm_call_documents _ _ _ _ _ _ _ _ _)
      hsome] at h
    simp at h
  · intro rt verrs rj p _ _ _ _
    obtain ⟨r, hr, hrd⟩ := upsert_phd_status_mem
      (upsert_llm_call db rid d (doc_fingerprint env d) (some rt) true verrs "SUCCESS" none).2
      d rid p.is_current_phd p.current_employer p.current_title p.since_month p.evidence
      (upsert_llm_call db rid d (doc_fingerprint env d) (some rt) true verrs "SUCCESS" none).1
    refine ⟨r, ?_, hrd⟩
    rw [set_doc_status_phd_status]
    exact hr

/-! Validation-as-failure helpers. -/

theorem phdStatus_of_obj_icp (fields : List (String × Json)) (p : PhDStatus)
    (hp : phdStatus_of_obj fields = Except.ok p)
    (hnull : jlookup fields "is_current_phd" = some Json.null) :
    p.is_current_phd = none := by
  unfold phdStatus_of_obj at hp
  rw [hnull] at hp
  split at hp
  · exact Except.noConfusion hp
  next icp hicp =>
    have hicp' : icp = none := by
      have h2 := hicp
      rw [show parseOptBool "is_current_phd" (some Json.null) =
        Except.ok (none : Option Bool) from rfl] at h2
      exact (Except.ok.inj h2).symm
    split at hp
    · exact Except.noConfusion hp
    split at hp
    · exact Except.noConfusion hp
    split at hp
    · exact Except.noConfusion hp
    split at hp
    · exact Except.noConfusion hp
    have hrec := Except.ok.inj hp
    rw [← hrec]
    exact hicp'

theorem run_validation_obj (jl : String → Option Json) (rt : String)
    (fields : List (String × Json))
    (hjson : jl (extract_json_candidate rt) = some (Json.obj fields)) :
    run_validation jl rt =
      (match phdStatus_of_obj fields with
       | .error e => ValidateOutcome.handled false (some e) (some (Json.obj fields)) none
       | .ok p =>
           if p.is_current_phd = none then
             ValidateOutcome.handled false
               (some "is_current_phd must be true/false (not null)")
               (some (Json.obj fields)) none
           else ValidateOutcome.handled true none (some (Json.obj fields)) (some p)) := by
  unfold run_validation
  rw [hjson]

theorem run_validation_null (jl : String → Option Json) (rt : String)
    (fields : List (String × Json))
    (hjson : jl (extract_json_candidate rt) = some (Json.obj fields))
    (hnull : jlookup fields "is_current_phd" = some Json.null) :
    ∃ m, run_validation jl rt =
      ValidateOutcome.handled false (some m) (some (Json.obj fields)) none := by
  rw [run_validation_obj jl rt fields hjson]
  cases hp : phdStatus_of_obj fields with
  | error e => exact ⟨e, rfl⟩
  | ok p =>
      have hicp : p.is_current_phd = none := phdStatus_of_obj_icp fields p hp hnull
      exact ⟨"is_current_phd must be true/false (not null)", by simp [hicp]⟩

/-- Under the hypotheses that select the invalid-output path, the store
written by one document iteration is exactly the FAILED attempt upsert
followed by the FAILED document status. -/
theorem process_document_invalid_eq (env : Env) (db : DB) (rid : Nat) (d rt m : String)
    (rj : Option Json)
    (hguard : count_attempts db d < env.max_doc_attempts)
    (hroles : env.roles_rows d ≠ [])
    (hskip : has_validated_success db d (doc_fingerprint env d) = false)
    (hok : (ollama_chat env.ollama_max_retries (env.service (doc_prompt env d))).1 =
      Except.ok rt)
    (hval : run_validation env.json_loads rt =
      ValidateOutcome.handled false (some m) rj none) :
    process_document env db rid d =
      (set_doc_status
        (upsert_llm_call db rid d (doc_fingerprint env d) (some rt) false (some m) "FAILED"
          (some ("Validation failed: " ++ m))).2
        d "FAILED" (some ("LLM output invalid: " ++ m)),
       (ollama_chat env.ollama_max_retries (env.service (doc_prompt env d))).2) := by
  unfold process_document
  rw [if_neg (Nat.not_le.mpr hguard), if_neg hroles]
  simp only [hskip]
  rw [if_neg Bool.false_ne_true]
  simp only [hok, hval]
  rfl

/-! Retry-loop lemmas for the service client. -/

theorem go_succ (oracle : Nat → ServiceOutcome) (n used : Nat) (last : Option String) :
    ollama_chat_go oracle (n + 1) used last =
      match oracle (used + 1) with
      | .ok content => (Except.ok content, used + 1)
      | .err e => ollama_chat_go oracle n (used + 1) (some e) := rfl

theorem go_succ_err (oracle : Nat → ServiceOutcome) (n used : Nat) (last : Option String)
    (e : String) (h : oracle (used + 1) = ServiceOutcome.err e) :
    ollama_chat_go oracle (n + 1) used last = ollama_chat_go oracle n (used + 1) (some e) := by
  rw [go_succ, h]

theorem go_succ_ok (oracle : Nat → ServiceOutcome) (n used : Nat) (last : Option String)
    (c : String) (h : oracle (used + 1) = ServiceOutcome.ok c) :
    ollama_chat_go oracle (n + 1) used last = (Except.ok c, used + 1) := by
  rw [go_succ, h]

theorem go_bounds (oracle : Nat → ServiceOutcome) :
    ∀ (n used : Nat) (last : Option String),
      used ≤ (ollama_chat_go oracle n used last).2 ∧
      (ollama_chat_go oracle n used last).2 ≤ used + n := by
  intro n
  induction n with
  | zero =>
      intro used last
      exact ⟨Nat.le_refl _, Nat.le_refl _⟩
  | succ k ih =>
      intro used last
      cases h : oracle (used + 1) with
      | ok c =>
          rw [go_succ_ok oracle k used last c h]
          omega
      | err e =>
          rw [go_succ_err oracle k used last e h]
          have := ih (used + 1) (some e)
          omega

theorem go_ok (oracle : Nat → ServiceOutcome) :
    ∀ (n used : Nat) (last : Option String) (c : String),
      (ollama_chat_go oracle n used last).1 = Except.ok c →
      oracle (ollama_chat_go oracle n used last).2 = ServiceOutcome.ok c ∧
      used < (ollama_chat_go oracle n used last).2 ∧
      ∀ j, used < j → j < (ollama_chat_go oracle n used last).2 →
        ∃ e, oracle j = ServiceOutcome.err e := by
  intro n
  induction n with
  | zero =>
      intro used last c h
      cases last <;> simp [ollama_chat_go] at h
  | succ k ih =>
      intro used last c h
      cases ho : oracle (used + 1) with
      | ok c2 =>
          rw [go_succ_ok oracle k used last c2 ho] at h ⊢
          have hc : c2 = c := by simpa using h
          subst hc
          refine ⟨ho, Nat.lt_succ_self used, ?_⟩
          intro j hj1 hj2
          omega
      | err e =>
          rw [go_succ_err oracle k used last e ho] at h ⊢
          obtain ⟨h1, h2, h3⟩ := ih (used + 1) (some e) c h
          refine ⟨h1, Nat.lt_trans (Nat.lt_succ_self used) h2, ?_⟩
          intro j hj1 hj2
          by_cases hj : j = used + 1
          · subst hj
            exact ⟨e, ho⟩
          · exact h3 j (by omega) hj2

theorem go_all_err (oracle : Nat → ServiceOutcome) :
    ∀ (n used : Nat) (last : Option String),
      1 ≤ n → (∀ j, used < j → j ≤ used + n → ∃ e, oracle j = ServiceOutcome.err e) →
      ∃ e, ollama_chat_go oracle n used last = (Except.error e, used + n) ∧
        oracle (used + n) = ServiceOutcome.err e := by
  intro n
  induction n with
  | zero =>
      intro used last h
      exact absurd h (by omega)
  | succ k ih =>
      intro used last _ hall
      obtain ⟨e1, ho1⟩ := hall (used + 1) (Nat.lt_succ_self used) (by omega)
      cases k with
      | zero =>
          refine ⟨e1, ?_, ?_⟩
          · rw [go_succ_err oracle 0 used last e1 ho1]
            rfl
          · exact ho1
      | succ k2 =>
          obtain ⟨e, hgo, hor⟩ := ih (used + 1) (some e1) (by omega)
            (fun j a b => hall j (by omega) (by omega))
          refine ⟨e, ?_, ?_⟩
          · rw [go_succ_err oracle (k2 + 1) used last e1 ho1, hgo]
            have : used + 1 + (k2 + 1) = used + (k2 + 1 + 1) := by omega
            rw [this]
          · have : used + 1 + (k2 + 1) = used + (k2 + 1 + 1) := by omega
            rw [← this]
            exact hor

theorem go_first_ok (oracle : Nat → ServiceOutcome) :
    ∀ (n used : Nat) (last : Option String) (k : Nat) (c : String),
      used < k → k ≤ used + n → oracle k = ServiceOutcome.ok c →
      (∀ j, used < j → j < k → ∃ e, oracle j = ServiceOutcome.err e) →
      ollama_chat_go oracle n used last = (Except.ok c, k) := by
  intro n
  induction n with
  | zero =>
      intro used last k c h1 h2 _ _
      exfalso
      omega
  | succ kk ih =>
      intro used last k c h1 h2 h3 h4
      by_cases hk : k = used + 1
      · subst hk
        exact go_succ_ok oracle kk used last c h3
      · have hgt : used + 1 < k := by omega
        obtain ⟨e1, ho1⟩ := h4 (used + 1) (Nat.lt_succ_self used) hgt
        rw [go_succ_err oracle kk used last e1 ho1]
        exact ih (used + 1) (some e1) k c hgt (by omega) h3 (fun j a b => h4 j (by omega) b)

/-! Run-ledger status lemmas. -/

theorem find?_append_of_none {α : Type} (p : α → Bool) (l l2 : List α)
    (h : l.find? p = none) : (l ++ l2).find? p = l2.find? p := by
  induction l with
  | nil => rfl
  | cons a t ih =>
      rw [find?_cons_explicit] at h
      cases hp : p a with
      | true => rw [hp] at h; simp at h
      | false =>
          rw [hp] at h
          simp only [Bool.false_eq_true, if_false] at h
          rw [List.cons_append, find?_cons_explicit, hp]
          simp only [Bool.false_eq_true, if_false]
          exact ih h

theorem create_run_find (db : DB) (hfresh : run_ids_fresh db) :
    (create_run db).2.runs.find? (fun r => r.run_id == db.next_id) =
      some { run_id := db.next_id, pipeline_name := "llm_enrich_phd",
             status := "RUNNING", error_message := none } := by
  have hnone : db.runs.find? (fun r => r.run_id == db.next_id) = none := by
    apply List.find?_eq_none.mpr
    intro r hr
    have := hfresh r hr
    simp only [beq_iff_eq]
    omega
  show (db.runs ++ [_]).find? _ = _
  rw [find?_append_of_none _ _ _ hnone, find?_cons_explicit]
  simp

theorem finish_run_find_self (db : DB) (rid : Nat) (st : String) (err : Option String) :
    (finish_run db rid st err).runs.find? (fun r => r.run_id == rid) =
      (db.runs.find? (fun r => r.run_id == rid)).map
        (fun r => { r with status := st, error_message := err }) := by
  unfold finish_run
  simp only
  induction db.runs with
  | nil => rfl
  | cons a t ih =>
      rw [List.map_cons]
      cases hk : a.run_id == rid with
      | true =>
          have had : a.run_id = rid := by simpa using hk
          rw [if_pos rfl, find?_cons_explicit, find?_cons_explicit]
          simp [had]
      | false =>
          rw [if_neg (by simp [hk]), find?_cons_explicit, find?_cons_explicit]
          simp only [hk, Bool.false_eq_true, if_false]
          exact ih

theorem run_status_finish (db : DB) (rid : Nat) (st : String) (err : Option String)
    (hsome : (db.runs.find? (fun r => r.run_id == rid)).isSome) :
    run_status (finish_run db rid st err) rid = some st := by
  unfold run_status
  rw [finish_run_find_self]
  cases hfind : db.runs.find? (fun r => r.run_id == rid) with
  | none => rw [hfind] at hsome; simp at hsome
  | some r => simp

theorem runs_find_congr {X Y : DB} (h : X.runs = Y.runs) (p : RunRow → Bool) :
    X.runs.find? p = Y.runs.find? p := by rw [h]

/-! Lemmas on the JSON-candidate extraction. -/

theorem matchFencedAt_shape {cs : List Char} {m : List Char}
    (h : matchFencedAt cs = some m) : ∃ b, m = lbrace :: (b ++ [rbrace]) := by
  unfold matchFencedAt at h
  split at h
  · split at h
    · exact Option.noConfusion h
    · split at h
      · obtain ⟨b, _, hb⟩ := Option.map_eq_some'.mp h
        exact ⟨b, hb.symm⟩
      · exact Option.noConfusion h
  · exact Option.noConfusion h

theorem findFirstFenced_shape : ∀ {cs m : List Char},
    findFirstFenced cs = some m → ∃ b, m = lbrace :: (b ++ [rbrace])
  | [], _, h => Option.noConfusion h
  | c :: rest, m, h => by
      unfold findFirstFenced at h
      split at h
      · next hm => exact matchFencedAt_shape (hm.trans h)
      · exact findFirstFenced_shape h

theorem pyStrip_braced (b : List Char) :
    pyStrip (lbrace :: (b ++ [rbrace])) = lbrace :: (b ++ [rbrace]) := by
  have h1 : isPyWS lbrace = false := by decide
  have h2 : isPyWS rbrace = false := by decide
  unfold pyStrip
  rw [List.dropWhile_cons]
  simp only [h1, Bool.false_eq_true, if_false]
  have hrev : (lbrace :: (b ++ [rbrace])).reverse = rbrace :: (b.reverse ++ [lbrace]) := by
    simp
  rw [hrev, List.dropWhile_cons]
  simp only [h2, Bool.false_eq_true, if_false]
  rw [← hrev, List.reverse_reverse]

theorem extract_fenced {text : String} {m : List Char}
    (h : findFirstFenced text.toList = some m) :
    extract_json_candidate text = String.mk m := by
  obtain ⟨b, rfl⟩ := findFirstFenced_shape h
  unfold extract_json_candidate
  rw [h]
  show String.mk (pyStrip (lbrace :: (b ++ [rbrace]))) = String.mk (lbrace :: (b ++ [rbrace]))
  rw [pyStrip_braced]

theorem firstIdx_le (c : Char) : ∀ (l : List Char) (i : Nat), l[i]? = some c →
    ∃ s, firstIdx c l = some s ∧ s ≤ i := by
  intro l
  induction l with
  | nil => intro i h; simp at h
  | cons x xs ih =>
      intro i h
      unfold firstIdx
      cases hx : x == c with
      | true => exact ⟨0, by rw [if_pos rfl], Nat.zero_le i⟩
      | false =>
          rw [if_neg Bool.false_ne_true]
          cases i with
          | zero =>
              simp only [List.getElem?_cons_zero, Option.some.injEq] at h
              rw [h] at hx
              simp at hx
          | succ i2 =>
              rw [List.getElem?_cons_succ] at h
              obtain ⟨s, hs, hle⟩ := ih i2 h
              exact ⟨s + 1, by rw [hs]; rfl, Nat.succ_le_succ hle⟩

theorem firstIdx_get (c : Char) : ∀ (l : List Char) (s : Nat),
    firstIdx c l = some s → l[s]? = some c := by
  intro l
  induction l with
  | nil => intro s h; exact Option.noConfusion h
  | cons x xs ih =>
      intro s h
      unfold firstIdx at h
      cases hx : x == c with
      | true =>
          rw [if_pos hx] at h
          have : s = 0 := (Option.some.inj h).symm
          subst this
          have : x = c := by simpa using hx
          simp [this]
      | false =>
          rw [hx] at h
          rw [if_neg Bool.false_ne_true] at h
          obtain ⟨s2, hs2, rfl⟩ := Option.map_eq_some'.mp h
          rw [List.getElem?_cons_succ]
          exact ih s2 hs2

theorem firstIdx_min (c : Char) : ∀ (l : List Char) (s : Nat),
    firstIdx c l = some s → ∀ k, k < s → l[k]? ≠ some c := by
  intro l
  induction l with
  | nil => intro s h; exact absurd h (Option.noConfusion)
  | cons x xs ih =>
      intro s h k hk
      unfold firstIdx at h
      cases hx : x == c with
      | true =>
          rw [if_pos hx] at h
          have : s = 0 := (Option.some.inj h).symm
          subst this
          exact absurd hk (Nat.not_lt_zero k)
      | false =>
          rw [hx] at h
          rw [if_neg Bool.false_ne_true] at h
          obtain ⟨s2, hs2, rfl⟩ := Option.map_eq_some'.mp h
          cases k with
          | zero =>
              rw [List.getElem?_cons_zero]
              intro he
              rw [Option.some.inj he] at hx
              simp at hx
          | succ k2 =>
              rw [List.getElem?_cons_succ]
              exact ih s2 hs2 k2 (Nat.lt_of_succ_lt_succ hk)

theorem lastIdx_ge (c : Char) : ∀ (l : List Char) (j : Nat), l[j]? = some c →
    ∃ e, lastIdx c l = some e ∧ j ≤ e := by
  intro l
  induction l with
  | nil => intro j h; simp at h
  | cons x xs ih =>
      intro j h
      unfold lastIdx
      cases hl : lastIdx c xs with
      | some k =>
          cases j with
          | zero => exact ⟨k + 1, rfl, Nat.zero_le _⟩
          | succ j2 =>
              rw [List.getElem?_cons_succ] at h
              obtain ⟨e, he, hje⟩ := ih j2 h
              rw [he] at hl
              have : e = k := Option.some.inj hl
              subst this
              exact ⟨e + 1, rfl, Nat.succ_le_succ hje⟩
      | none =>
          cases j with
          | zero =>
              simp only [List.getElem?_cons_zero, Option.some.injEq] at h
              subst h
              refine ⟨0, ?_, Nat.le_refl 0⟩
              show (if (x == x) = true then some 0 else none) = some 0
              rw [if_pos (by simp)]
          | succ j2 =>
              rw [List.getElem?_cons_succ] at h
              obtain ⟨e, he, _⟩ := ih j2 h
              rw [he] at hl
              exact Option.noConfusion hl

theorem lastIdx_get (c : Char) : ∀ (l : List Char) (e : Nat),
    lastIdx c l = some e → l[e]? = some c := by
  intro l
  induction l with
  | nil => intro e h; exact Option.noConfusion h
  | cons x xs ih =>
      intro e h
      unfold lastIdx at h
      cases hl : lastIdx c xs with
      | some k =>
          rw [hl] at h
          have : e = k + 1 := (Option.some.inj h).symm
          subst this
          rw [List.getElem?_cons_succ]
          exact ih k hl
      | none =>
          rw [hl] at h
          cases hx : x == c with
          | true =>
              rw [if_pos hx] at h
              have : e = 0 := (Option.some.inj h).symm
              subst this
              have : x = c := by simpa using hx
              simp [this]
          | false =>
              rw [hx] at h
              rw [if_neg Bool.false_ne_true] at h
              exact Option.noConfusion h

theorem lastIdx_none (c : Char) : ∀ (l : List Char),
    lastIdx c l = none → ∀ i : Nat, l[i]? ≠ some c := by
  intro l
  induction l with
  | nil => intro _ i; simp
  | cons x xs ih =>
      intro h i
      unfold lastIdx at h
      cases hl : lastIdx c xs with
      | some k => rw [hl] at h; exact Option.noConfusion h
      | none =>
          rw [hl] at h
          cases hx : x == c with
          | true => rw [if_pos hx] at h; exact Option.noConfusion h
          | false =>
              cases i with
              | zero =>
                  rw [List.getElem?_cons_zero]
                  intro he
                  rw [Option.some.inj he] at hx
                  simp at hx
              | succ i2 =>
                  rw [List.getElem?_cons_succ]
                  exact ih hl i2

theorem lastIdx_max (c : Char) : ∀ (l : List Char) (e : Nat),
    lastIdx c l = some e → ∀ k, e < k → l[k]? ≠ some c := by
  intro l
  induction l with
  | nil => intro e h; exact absurd h (Option.noConfusion)
  | cons x xs ih =>
      intro e h k hk
      unfold lastIdx at h
      cases hl : lastIdx c xs with
      | some m =>
          rw [hl] at h
          have : e = m + 1 := (Option.some.inj h).symm
          subst this
          cases k with
          | zero => exact absurd hk (by omega)
          | succ k2 =>
              rw [List.getElem?_cons_succ]
              exact ih m hl k2 (by omega)
      | none =>
          rw [hl] at h
          cases hx : x == c with
          | true =>
              rw [if_pos hx] at h
              have : e = 0 := (Option.some.inj h).symm
              subst this
              cases k with
              | zero => exact absurd hk (by omega)
              | succ k2 =>
                  rw [List.getElem?_cons_succ]
                  exact lastIdx_none c xs hl k2
          | false =>
              rw [hx] at h
              rw [if_neg Bool.false_ne_true] at h
              exact Option.noConfusion h

theorem take_to_rbrace : ∀ (l : List Char) (n : Nat), l[n]? = some rbrace →
    ∃ b, l.take (n + 1) = b ++ [rbrace] := by
  intro l
  induction l with
  | nil => intro n h; simp at h
  | cons y ys ih =>
      intro n h
      cases n with
      | zero =>
          simp only [List.getElem?_cons_zero, Option.some.injEq] at h
          subst h
          exact ⟨[], rfl⟩
      | succ m =>
          rw [List.getElem?_cons_succ] at h
          obtain ⟨b, hb⟩ := ih m h
          exact ⟨y :: b, by rw [List.take_succ_cons, hb, List.cons_append]⟩

theorem slice_shape (cs : List Char) (s e : Nat)
    (hs : cs[s]? = some lbrace) (he : cs[e]? = some rbrace) (hlt : s < e) :
    ∃ b, (cs.drop s).take (e - s + 1) = lbrace :: (b ++ [rbrace]) := by
  have ht0 : (cs.drop s)[0]? = some lbrace := by
    rw [List.getElem?_drop]
    exact hs
  have htn : (cs.drop s)[e - s]? = some rbrace := by
    rw [List.getElem?_drop]
    have : s + (e - s) = e := by omega
    rw [this]
    exact he
  obtain ⟨n, hn⟩ : ∃ n, e - s = n + 1 := ⟨e - s - 1, by omega⟩
  cases hdrop : cs.drop s with
  | nil => rw [hdrop] at ht0; simp at ht0
  | cons x rest =>
      rw [hdrop] at ht0 htn
      simp only [List.getElem?_cons_zero, Option.some.injEq] at ht0
      subst ht0
      rw [hn] at htn ⊢
      rw [List.getElem?_cons_succ] at htn
      obtain ⟨b, hb⟩ := take_to_rbrace rest n htn
      exact ⟨b, by rw [List.take_succ_cons, hb]⟩

theorem extract_fallback {text : String} (hnone : findFirstFenced text.toList = none)
    {i j : Nat} (hij : i < j) (hi : text.toList[i]? = some lbrace)
    (hj : text.toList[j]? = some rbrace) :
    ∃ s e, firstIdx lbrace text.toList = some s ∧ lastIdx rbrace text.toList = some e ∧
      s ≤ i ∧ j ≤ e ∧ s < e ∧
      extract_json_candidate text =
        String.mk ((text.toList.drop s).take (e - s + 1)) := by
  obtain ⟨s, hfs, hsle⟩ := firstIdx_le lbrace text.toList i hi
  obtain ⟨e, hle, hjle⟩ := lastIdx_ge rbrace text.toList j hj
  have hse : s < e := by omega
  refine ⟨s, e, hfs, hle, hsle, hjle, hse, ?_⟩
  unfold extract_json_candidate
  simp only [hnone, hfs, hle]
  rw [if_pos hse]
  obtain ⟨b, hb⟩ := slice_shape text.toList s e
    (firstIdx_get lbrace text.toList s hfs) (lastIdx_get rbrace text.toList e hle) hse
  rw [hb, pyStrip_braced]

/-! Claims. -/

/-- Claim C1 (idempotent skip): for every document with an existing
AttemptRecord of status SUCCESS and validated=true for its current
input fingerprint, a re-run of the pipeline performs zero service calls
for that document and leaves all of its persisted records (documents
row, attempts, enriched record) unchanged. -/
theorem claim_C1_idempotent_skip (env : Env) (db : DB) (d : String)
    (hvs : has_validated_success db d (doc_fingerprint env d) = true) :
    doc_records (run_pipeline env db).db d = doc_records db d ∧
    ∀ pr ∈ (run_pipeline env db).call_log, pr.1 = d → pr.2 = 0 := by
  unfold run_pipeline
  cases env.selector_error with
  | some e =>
      constructor
      · rfl
      · intro pr hpr
        exact absurd hpr (List.not_mem_nil pr)
  | none =>
      have hvs2 : has_validated_success (create_run db).2 d (doc_fingerprint env d) = true := hvs
      obtain ⟨h1, h2, h3, h4⟩ := process_docs_hvs env (create_run db).1 d
        (select_documents (create_run db).2 env.max_doc_attempts) (create_run db).2 hvs2
      constructor
      · refine Prod.ext ?_ (Prod.ext ?_ ?_)
        · exact h1
        · exact h2
        · exact h3
      · exact h4

/-- Witness for C1 at a concrete store holding a validated success. -/
theorem claim_C1_idempotent_skip_witness :
    has_validated_success dbSkip "A" (doc_fingerprint envBase "A") = true ∧
    (doc_records (run_pipeline envBase dbSkip).db "A" = doc_records dbSkip "A" ∧
     ∀ pr ∈ (run_pipeline envBase dbSkip).call_log, pr.1 = "A" → pr.2 = 0) :=
  ⟨by decide, claim_C1_idempotent_skip envBase dbSkip "A" (by decide)⟩

/-- Counterexample to claim C2 as stated: the Selector returns documents
whose status is PARSED or NEEDS_REVIEW unconditionally, so a document
with an exhausted attempt budget but status PARSED is still returned —
the bound does not hold "regardless of the document's status". -/
theorem claim_C2_attempt_bound_cex :
    3 ≤ count_attempts dbExhaustedParsed "P" ∧
    "P" ∈ select_documents dbExhaustedParsed 3 := by decide

/-- Claim C2, amended (attempt bound): once a document's attempt count
has reached the configured maximum and every row of that document has
status FAILED, the Selector never returns it again, in any number of
further runs.  (Documents with status PARSED or NEEDS_REVIEW are
returned by the Selector unconditionally; for those only the main
loop's pre-call guard prevents processing.) -/
theorem claim_C2_attempt_bound (env : Env) (db : DB) (d : String)
    (hmax : env.max_doc_attempts ≤ count_attempts db d)
    (hfailed : ∀ doc ∈ db.documents, doc.document_id = d → doc.status = "FAILED") :
    ∀ n : Nat, d ∉ select_documents (iterate_runs env db n) env.max_doc_attempts := by
  intro n
  obtain ⟨h1, h2⟩ := iterate_preserves_exhausted_failed env d n db hmax hfailed
  exact not_selected_of_failed_exhausted _ _ _ h1 h2

/-- Witness for the amended C2 at a concrete exhausted FAILED document,
after two further runs. -/
theorem claim_C2_attempt_bound_witness :
    (envBase.max_doc_attempts ≤ count_attempts dbExhausted "E" ∧
     (∀ doc ∈ dbExhausted.documents, doc.document_id = "E" → doc.status = "FAILED")) ∧
    "E" ∉ select_documents (iterate_runs envBase dbExhausted 2) envBase.max_doc_attempts :=
  ⟨⟨by decide, by decide⟩,
   claim_C2_attempt_bound envBase dbExhausted "E" (by decide) (by decide) 2⟩

/-- Claim C3 (enrichment invariant): the uniqueness constraint on
(document, model, prompt_version, input_fingerprint) is preserved by a
full pipeline run and by each document iteration; a processed document
(present, not already ENRICHED) ends the iteration with status ENRICHED
exactly when the iteration wrote a validated SUCCESS attempt for its
current fingerprint; and on that path an EnrichedRecord row for the
document exists in the same written store. -/
theorem claim_C3_enrichment_invariant (env : Env) (db : DB) (rid : Nat) (d : String)
    (hu : llm_keys_unique db) (hsome : (doc_status db d).isSome)
    (hne : doc_status db d ≠ some "ENRICHED") :
    llm_keys_unique (run_pipeline env db).db ∧
    llm_keys_unique (process_document env db rid d).1 ∧
    ((doc_status (process_document env db rid d).1 d = some "ENRICHED") ↔
      (has_validated_success (process_document env db rid d).1 d (doc_fingerprint env d) = true ∧
       has_validated_success db d (doc_fingerprint env d) = false)) ∧
    (doc_status (process_document env db rid d).1 d = some "ENRICHED" →
      ∃ r ∈ (process_document env db rid d).1.phd_status, r.document_id = d) :=
  ⟨run_pipeline_keys_unique env db hu,
   process_document_keys_unique env db rid d hu,
   process_document_enriched_iff env db rid d hsome hne,
   process_document_enriched_phd env db rid d hsome hne⟩

/-- Witness for C3 at a concrete environment whose service returns a
valid payload. -/
theorem claim_C3_enrichment_invariant_witness :
    llm_keys_unique dbFresh ∧ (doc_status dbFresh "A").isSome = true ∧
    doc_status dbFresh "A" ≠ some "ENRICHED" ∧
    (llm_keys_unique (run_pipeline envGood dbFresh).db ∧
     llm_keys_unique (process_document envGood dbFresh 7 "A").1 ∧
     ((doc_status (process_document envGood dbFresh 7 "A").1 "A" = some "ENRICHED") ↔
       (has_validated_success (process_document envGood dbFresh 7 "A").1 "A"
          (doc_fingerprint envGood "A") = true ∧
        has_validated_success dbFresh "A" (doc_fingerprint envGood "A") = false)) ∧
     (doc_status (process_document envGood dbFresh 7 "A").1 "A" = some "ENRICHED" →
       ∃ r ∈ (process_document envGood dbFresh 7 "A").1.phd_status, r.document_id = "A")) :=
  ⟨List.Pairwise.nil, by decide, by decide,
   claim_C3_enrichment_invariant envGood dbFresh 7 "A" List.Pairwise.nil (by decide) (by decide)⟩

/-- Claim C10 (implicit pre-call budget guard): the main loop re-checks
the attempt count before any work; a document whose count has reached
the configured maximum is skipped with no service call and no change to
the store, whatever the Selector returned it for. -/
theorem claim_C10_precall_budget_guard (env : Env) (db : DB) (rid : Nat) (d : String)
    (h : env.max_doc_attempts ≤ count_attempts db d) :
    process_document env db rid d = (db, 0) :=
  process_document_skip_guard env db rid d h

/-- Witness for C10 at a concrete exhausted PARSED document, which the
Selector does return. -/
theorem claim_C10_precall_budget_guard_witness :
    envBase.max_doc_attempts ≤ count_attempts dbExhaustedParsed "P" ∧
    process_document envBase dbExhaustedParsed 7 "P" = (dbExhaustedParsed, 0) :=
  ⟨by decide, claim_C10_precall_budget_guard envBase dbExhaustedParsed 7 "P" (by decide)⟩

/-- Claim C4 (validation-as-failure): when the service call succeeds but
the response parses as a JSON object whose `is_current_phd` is null, the
iteration records an AttemptRecord with status FAILED (not SUCCESS) and
validated=false; that row is counted by `count_attempts`, the count does
not decrease and is positive afterwards (the retry budget is consumed),
and the document is set to FAILED with a validation error message. -/
theorem claim_C4_validation_as_failure (env : Env) (db : DB) (rid : Nat) (d rt : String)
    (fields : List (String × Json))
    (hguard : count_attempts db d < env.max_doc_attempts)
    (hroles : env.roles_rows d ≠ [])
    (hskip : has_validated_success db d (doc_fingerprint env d) = false)
    (hok : (ollama_chat env.ollama_max_retries (env.service (doc_prompt env d))).1 =
      Except.ok rt)
    (hjson : env.json_loads (extract_json_candidate rt) = some (Json.obj fields))
    (hnull : jlookup fields "is_current_phd" = some Json.null)
    (hsome : (doc_status db d).isSome) :
    ∃ m : String,
      (∃ c ∈ (process_document env db rid d).1.llm_calls,
        call_key_matches c d MODEL PROMPT_VERSION (doc_fingerprint env d) = true ∧
        c.status = "FAILED" ∧ c.validated = false ∧ c.validation_errors = some m ∧
        attempt_counted c d = true) ∧
      count_attempts db d ≤ count_attempts (process_document env db rid d).1 d ∧
      1 ≤ count_attempts (process_document env db rid d).1 d ∧
      doc_status (process_document env db rid d).1 d = some "FAILED" ∧
      (∃ doc ∈ (process_document env db rid d).1.documents, doc.document_id = d ∧
        doc.error_message = some ("LLM output invalid: " ++ m)) := by
  obtain ⟨m, hval⟩ := run_validation_null env.json_loads rt fields hjson hnull
  have heq := process_document_invalid_eq env db rid d rt m (some (Json.obj fields))
    hguard hroles hskip hok hval
  obtain ⟨c, hcmem, _, hkey, _, hst, hv, hve, _, _⟩ := upsert_llm_call_mem db rid d
    (doc_fingerprint env d) (some rt) false (some m) "FAILED"
    (some ("Validation failed: " ++ m))
  have hcount_set : count_attempts
      (set_doc_status
        (upsert_llm_call db rid d (doc_fingerprint env d) (some rt) false (some m) "FAILED"
          (some ("Validation failed: " ++ m))).2
        d "FAILED" (some ("LLM output invalid: " ++ m))) d =
      count_attempts
        (upsert_llm_call db rid d (doc_fingerprint env d) (some rt) false (some m) "FAILED"
          (some ("Validation failed: " ++ m))).2 d :=
    count_attempts_congr (calls_of_eq_of_llm_calls (set_doc_status_llm_calls _ _ _ _) _)
  have hcounted : attempt_counted c d = true := by
    obtain ⟨k1, k2, k3, _⟩ := call_key_matches_iff.mp hkey
    exact attempt_counted_iff.mpr ⟨k1, k2, k3, Or.inl hst⟩
  refine ⟨m, ?_, ?_, ?_, ?_, ?_⟩
  · refine ⟨c, ?_, hkey, hst, hv, hve, hcounted⟩
    rw [heq]
    show c ∈ (set_doc_status _ d "FAILED" _).llm_calls
    rw [set_doc_status_llm_calls]
    exact hcmem
  · rw [heq]
    show count_attempts db d ≤ count_attempts (set_doc_status _ d "FAILED" _) d
    rw [hcount_set]
    exact upsert_llm_call_count_mono db rid d (doc_fingerprint env d) (some rt) false
      (some m) (some ("Validation failed: " ++ m)) d
  · rw [heq]
    show 1 ≤ count_attempts (set_doc_status _ d "FAILED" _) d
    rw [hcount_set]
    exact count_attempts_pos_of_mem hcmem hcounted
  · rw [heq]
    exact doc_status_after_set_on db _ d _ _ (upsert_llm_call_documents _ _ _ _ _ _ _ _ _)
      hsome
  · rw [heq]
    obtain ⟨doc, hdmem, hdid, _, hderr⟩ := set_doc_status_mem_self
      (upsert_llm_call db rid d (doc_fingerprint env d) (some rt) false (some m) "FAILED"
        (some ("Validation failed: " ++ m))).2
      d "FAILED" (some ("LLM output invalid: " ++ m))
      (by rw [doc_status_eq_of_documents (upsert_llm_call_documents _ _ _ _ _ _ _ _ _) d]
          exact hsome)
    exact ⟨doc, hdmem, hdid, hderr⟩

/-- Witness for C4 at a concrete null-decision response. -/
theorem claim_C4_validation_as_failure_witness :
    (count_attempts dbFresh "A" < envNull.max_doc_attempts ∧
     envNull.json_loads (extract_json_candidate nullText) =
       some (Json.obj [("is_current_phd", Json.null), ("evidence", Json.str "inconclusive")])) ∧
    (∃ m : String,
      (∃ c ∈ (process_document envNull dbFresh 7 "A").1.llm_calls,
        call_key_matches c "A" MODEL PROMPT_VERSION (doc_fingerprint envNull "A") = true ∧
        c.status = "FAILED" ∧ c.validated = false ∧ c.validation_errors = some m ∧
        attempt_counted c "A" = true) ∧
      count_attempts dbFresh "A" ≤ count_attempts (process_document envNull dbFresh 7 "A").1 "A" ∧
      1 ≤ count_attempts (process_document envNull dbFresh 7 "A").1 "A" ∧
      doc_status (process_document envNull dbFresh 7 "A").1 "A" = some "FAILED" ∧
      (∃ doc ∈ (process_document envNull dbFresh 7 "A").1.documents, doc.document_id = "A" ∧
        doc.error_message = some ("LLM output invalid: " ++ m))) :=
  ⟨⟨by decide, rfl⟩,
   claim_C4_validation_as_failure envNull dbFresh 7 "A" nullText
     [("is_current_phd", Json.null), ("evidence", Json.str "inconclusive")]
     (by decide) (by decide) (by decide) rfl rfl rfl (by decide)⟩

/-- Claim C5 (no cross-document abort): whatever the per-document service
and validation outcomes are — including service calls that raise — a run
whose selector succeeds processes every selected document (the call log
covers the whole selection), finishes its run row with status SUCCESS
and exits with code 0; an error in the selector query instead yields a
FAILED run row and exit code 1. -/
theorem claim_C5_no_cross_document_abort (env : Env) (db : DB) (hfresh : run_ids_fresh db) :
    (env.selector_error = none →
      (run_pipeline env db).exit_code = 0 ∧
      run_status (run_pipeline env db).db (run_pipeline env db).run_id = some "SUCCESS" ∧
      (run_pipeline env db).call_log.map Prod.fst =
        select_documents (create_run db).2 env.max_doc_attempts) ∧
    (∀ e, env.selector_error = some e →
      (run_pipeline env db).exit_code = 1 ∧
      run_status (run_pipeline env db).db (run_pipeline env db).run_id = some "FAILED") := by
  have hfind : (create_run db).2.runs.find? (fun r => r.run_id == (create_run db).1) =
      some { run_id := db.next_id, pipeline_name := "llm_enrich_phd",
             status := "RUNNING", error_message := none } :=
    create_run_find db hfresh
  constructor
  · intro hsel
    unfold run_pipeline
    rw [hsel]
    refine ⟨rfl, ?_, ?_⟩
    · apply run_status_finish
      rw [runs_find_congr (process_docs_runs env (create_run db).1 _ (create_run db).2), hfind]
      rfl
    · exact process_docs_log_keys env (create_run db).1 _ (create_run db).2
  · intro e hsel
    unfold run_pipeline
    rw [hsel]
    refine ⟨rfl, ?_⟩
    apply run_status_finish
    rw [hfind]
    rfl

/-- Witness for C5: two selected documents, the more recent one with an
always-raising service; the run still exits 0 with a SUCCESS run row,
the call log covers both documents, and the second document is enriched
while the first is marked FAILED. -/
theorem claim_C5_no_cross_document_abort_witness :
    ((run_pipeline envAB dbAB).exit_code = 0 ∧
     run_status (run_pipeline envAB dbAB).db (run_pipeline envAB dbAB).run_id =
       some "SUCCESS" ∧
     (run_pipeline envAB dbAB).call_log.map Prod.fst =
       select_documents (create_run dbAB).2 envAB.max_doc_attempts) ∧
    doc_status (run_pipeline envAB dbAB).db "A" = some "FAILED" ∧
    doc_status (run_pipeline envAB dbAB).db "B" = some "ENRICHED" :=
  ⟨(claim_C5_no_cross_document_abort envAB dbAB
      (fun r hr => absurd hr (List.not_mem_nil r))).1 rfl,
   by decide, by decide⟩

/-- Claim C6 (service client retry contract): `ollama_chat` performs at
most the configured number of attempts; when it returns content, that
content came from the first successful attempt and no further attempt
was made; the first successful attempt determines the result; and when
every attempt fails, it raises the error of the last attempt after
exactly the configured number of attempts.  The client takes no store
and returns no store: it never touches persistent state. -/
theorem claim_C6_service_client_retry (m : Nat) (oracle : Nat → ServiceOutcome) :
    (ollama_chat m oracle).2 ≤ m ∧
    (∀ c, (ollama_chat m oracle).1 = Except.ok c →
      1 ≤ (ollama_chat m oracle).2 ∧
      oracle (ollama_chat m oracle).2 = ServiceOutcome.ok c ∧
      ∀ j, 1 ≤ j → j < (ollama_chat m oracle).2 → ∃ e, oracle j = ServiceOutcome.err e) ∧
    (∀ k c, 1 ≤ k → k ≤ m → oracle k = ServiceOutcome.ok c →
      (∀ j, 1 ≤ j → j < k → ∃ e, oracle j = ServiceOutcome.err e) →
      ollama_chat m oracle = (Except.ok c, k)) ∧
    (1 ≤ m → (∀ j, 1 ≤ j → j ≤ m → ∃ e, oracle j = ServiceOutcome.err e) →
      ∃ e, ollama_chat m oracle = (Except.error e, m) ∧ oracle m = ServiceOutcome.err e) := by
  unfold ollama_chat
  refine ⟨?_, ?_, ?_, ?_⟩
  · have h := (go_bounds oracle m 0 none).2
    omega
  · intro c h
    obtain ⟨h1, h2, h3⟩ := go_ok oracle m 0 none c h
    exact ⟨h2, h1, fun j hj1 hj2 => h3 j (by omega) hj2⟩
  · intro k c hk1 hkm hok hprev
    exact go_first_ok oracle m 0 none k c (by omega) (by omega) hok
      (fun j a b => hprev j (by omega) b)
  · intro hm hall
    obtain ⟨e, hgo, hor⟩ := go_all_err oracle m 0 none hm
      (fun j a b => hall j (by omega) (by omega))
    have h0 : 0 + m = m := by omega
    rw [h0] at hgo hor
    exact ⟨e, hgo, hor⟩

/-- Witness for C6: a first attempt that fails with a timeout followed
by a successful second attempt yields the second content in exactly two
attempts. -/
theorem claim_C6_service_client_retry_witness :
    ollama_chat 2 (fun k => if k == 1 then ServiceOutcome.err "timeout"
      else ServiceOutcome.ok "hello") = (Except.ok "hello", 2) :=
  (claim_C6_service_client_retry 2 _).2.2.1 2 "hello" (by decide) (by decide) (by decide)
    (fun j hj1 hj2 => ⟨"timeout", by
      have hj : j = 1 := by omega
      subst hj
      rfl⟩)

/-- Counterexample to claim C7 as stated: on a response whose JSON
candidate parses successfully to a non-object value (here the number 42),
`PhDStatus(**response_json)` raises `TypeError`, which is not in the
caught exception tuple, so the validation block does not return a
handled verdict at all. -/
theorem claim_C7_validator_totality_cex :
    jl42 (extract_json_candidate "42") = some (Json.num 42) ∧
    run_validation jl42 "42" =
      ValidateOutcome.raised "TypeError: argument of type PhDStatus is not a mapping" ∧
    ∀ v errs rj p, run_validation jl42 "42" ≠ ValidateOutcome.handled v errs rj p := by
  have h : run_validation jl42 "42" =
      ValidateOutcome.raised "TypeError: argument of type PhDStatus is not a mapping" := rfl
  refine ⟨rfl, h, fun v errs rj p hc => ?_⟩
  rw [h] at hc
  exact ValidateOutcome.noConfusion hc

/-- Claim C7 (validator totality), amended: whenever `json.loads` either
fails or yields a JSON object, the parse-and-validate block returns a
handled verdict — it never lets an exception escape on those inputs. -/
theorem claim_C7_validator_totality (jl : String → Option Json) (rt : String)
    (h : jl (extract_json_candidate rt) = none ∨
      ∃ fields, jl (extract_json_candidate rt) = some (Json.obj fields)) :
    ∃ v errs rj p, run_validation jl rt = ValidateOutcome.handled v errs rj p := by
  cases h with
  | inl hn =>
      refine ⟨false, some "JSONDecodeError: Expecting value", none, none, ?_⟩
      unfold run_validation
      rw [hn]
  | inr hobj =>
      obtain ⟨fields, hf⟩ := hobj
      rw [run_validation_obj jl rt fields hf]
      cases hp : phdStatus_of_obj fields with
      | error e => exact ⟨_, _, _, _, rfl⟩
      | ok p =>
          show ∃ v errs rj q,
            (if p.is_current_phd = none then
               ValidateOutcome.handled false
                 (some "is_current_phd must be true/false (not null)")
                 (some (Json.obj fields)) none
             else ValidateOutcome.handled true none (some (Json.obj fields)) (some p)) =
            ValidateOutcome.handled v errs rj q
          by_cases hn : p.is_current_phd = none
          · rw [if_pos hn]
            exact ⟨_, _, _, _, rfl⟩
          · rw [if_neg hn]
            exact ⟨_, _, _, _, rfl⟩

/-- Witness for the amended C7 at a concrete object-valued response. -/
theorem claim_C7_validator_totality_witness :
    (envNull.json_loads (extract_json_candidate nullText) = none ∨
      ∃ fields, envNull.json_loads (extract_json_candidate nullText) =
        some (Json.obj fields)) ∧
    ∃ v errs rj p, run_validation envNull.json_loads nullText =
      ValidateOutcome.handled v errs rj p :=
  ⟨Or.inr ⟨[("is_current_phd", Json.null), ("evidence", Json.str "inconclusive")], rfl⟩,
   claim_C7_validator_totality envNull.json_loads nullText
     (Or.inr ⟨[("is_current_phd", Json.null), ("evidence", Json.str "inconclusive")], rfl⟩)⟩

/-- Claim C8 (two-stage extraction): if the response contains a fenced
code block, the extractor returns exactly its brace-delimited body;
otherwise, whenever an opening brace occurs before some closing brace,
the extractor falls back to the slice from the FIRST opening brace to
the LAST closing brace (both characterised as first/last by position). -/
theorem claim_C8_two_stage_extraction (text : String) :
    (∀ m, findFirstFenced text.toList = some m →
      extract_json_candidate text = String.mk m) ∧
    (findFirstFenced text.toList = none →
      ∀ i j : Nat, i < j → text.toList[i]? = some lbrace → text.toList[j]? = some rbrace →
      ∃ s e, firstIdx lbrace text.toList = some s ∧ lastIdx rbrace text.toList = some e ∧
        text.toList[s]? = some lbrace ∧
        (∀ k : Nat, k < s → text.toList[k]? ≠ some lbrace) ∧
        text.toList[e]? = some rbrace ∧
        (∀ k : Nat, e < k → text.toList[k]? ≠ some rbrace) ∧
        s < e ∧
        extract_json_candidate text =
          String.mk ((text.toList.drop s).take (e - s + 1))) := by
  constructor
  · intro m hm
    exact extract_fenced hm
  · intro hnone i j hij hi hj
    obtain ⟨s, e, hfs, hle, _, _, hse, hext⟩ := extract_fallback hnone hij hi hj
    exact ⟨s, e, hfs, hle, firstIdx_get lbrace text.toList s hfs,
      firstIdx_min lbrace text.toList s hfs, lastIdx_get rbrace text.toList e hle,
      lastIdx_max rbrace text.toList e hle, hse, hext⟩

/-- Witness for C8: a fenced response yields its body; a plain response
with interior braces yields the first-to-last brace slice. -/
theorem claim_C8_two_stage_extraction_witness :
    (findFirstFenced ("\x60\x60\x60\x7bq\x7d\x60\x60\x60" : String).toList =
       some [lbrace, 'q', rbrace] ∧
     extract_json_candidate "\x60\x60\x60\x7bq\x7d\x60\x60\x60" =
       String.mk [lbrace, 'q', rbrace]) ∧
    (∃ s e, firstIdx lbrace ("x\x7ba\x7db" : String).toList = some s ∧
       lastIdx rbrace ("x\x7ba\x7db" : String).toList = some e ∧
       ("x\x7ba\x7db" : String).toList[s]? = some lbrace ∧
       (∀ k : Nat, k < s → ("x\x7ba\x7db" : String).toList[k]? ≠ some lbrace) ∧
       ("x\x7ba\x7db" : String).toList[e]? = some rbrace ∧
       (∀ k : Nat, e < k → ("x\x7ba\x7db" : String).toList[k]? ≠ some rbrace) ∧
       s < e ∧
       extract_json_candidate "x\x7ba\x7db" =
         String.mk ((("x\x7ba\x7db" : String).toList.drop s).take (e - s + 1))) := by
  constructor
  · have hf : findFirstFenced ("\x60\x60\x60\x7bq\x7d\x60\x60\x60" : String).toList =
        some [lbrace, 'q', rbrace] := by decide
    exact ⟨hf, (claim_C8_two_stage_extraction "\x60\x60\x60\x7bq\x7d\x60\x60\x60").1
      [lbrace, 'q', rbrace] hf⟩
  · exact (claim_C8_two_stage_extraction "x\x7ba\x7db").2 (by decide) 1 3 (by decide)
      (by decide) (by decide)

/-- Claim C9 (upsert semantics): writing the phd_status row for the same
document twice — as the conflict-update upsert does — leaves exactly one
row for that document, carrying the most recent payload, and preserves
the one-row-per-document invariant of the table. -/
theorem claim_C9_upsert_semantics (db : DB) (d : String) (rid1 rid2 : Nat)
    (icp1 icp2 : Option Bool) (emp1 emp2 t1 t2 s1 s2 : Option String)
    (ev1 ev2 : String) (cid1 cid2 : Nat) (hu : phd_doc_unique db) :
    phd_of (upsert_phd_status (upsert_phd_status db d rid1 icp1 emp1 t1 s1 ev1 cid1)
        d rid2 icp2 emp2 t2 s2 ev2 cid2) d =
      [phd_row d rid2 icp2 emp2 t2 s2 ev2 cid2] ∧
    phd_doc_unique (upsert_phd_status (upsert_phd_status db d rid1 icp1 emp1 t1 s1 ev1 cid1)
        d rid2 icp2 emp2 t2 s2 ev2 cid2) := by
  have h1 := upsert_phd_status_self db d rid1 icp1 emp1 t1 s1 ev1 cid1 hu
  exact upsert_phd_status_self _ d rid2 icp2 emp2 t2 s2 ev2 cid2 h1.2

/-- Witness for C9 on the fresh store with two distinct payloads. -/
theorem claim_C9_upsert_semantics_witness :
    phd_of (upsert_phd_status
        (upsert_phd_status dbFresh "A" 1 (some false) none none none "e1" 10)
        "A" 2 (some true) (some "Acme") (some "Prof") (some "2020") "e2" 11) "A" =
      [phd_row "A" 2 (some true) (some "Acme") (some "Prof") (some "2020") "e2" 11] ∧
    phd_doc_unique (upsert_phd_status
        (upsert_phd_status dbFresh "A" 1 (some false) none none none "e1" 10)
        "A" 2 (some true) (some "Acme") (some "Prof") (some "2020") "e2" 11) :=
  claim_C9_upsert_semantics dbFresh "A" 1 2 (some false) (some true) none (some "Acme")
    none (some "Prof") none (some "2020") "e1" "e2" 10 11 List.Pairwise.nil

end LlmEnrich
